import Mathlib

/-!
Verification development for the AIBillBrief repository.

The development shallowly embeds the query-routing and retrieval engine of
`local_streamlit_app.py` and the metadata extractor of
`local_pdf_processor.py`.  Python regular expressions are embedded through a
small backtracking matcher (`reRun`/`reSearch`) whose alternation order,
greediness and laziness follow CPython's `re` engine on the pattern
constructs that actually occur in the sources.  Word characters, digits and
whitespace are modelled at the ASCII level, which covers the pattern
alphabets used by the program.  SQL queries sent to the backing store are
embedded as list transformations over the logical `BILL_CHUNKS` table;
`ORDER BY` is modelled with insertion sort (any ordering the backend picks
agrees with it up to ties on the sort key).
-/

namespace BillBrief

/-- ASCII model of the Python regex class `\s` (space, tab, newline,
carriage return, vertical tab, form feed). -/
def isPySpace (c : Char) : Bool :=
  c = ' ' || c = '\t' || c = '\n' || c = '\r' || c = '\x0b' || c = '\x0c'

/-- ASCII model of the Python regex class `\w` (letters, digits, underscore). -/
def isWordChar (c : Char) : Bool :=
  c.isAlpha || c.isDigit || c = '_'

/-- Case-sensitive list-prefix test. -/
def charsPrefix : List Char → List Char → Bool
  | [], _ => true
  | _ :: _, [] => false
  | a :: as, b :: bs => a = b && charsPrefix as bs

/-- Case-insensitive (ASCII case folding) list-prefix test, used for
patterns compiled with `re.IGNORECASE`. -/
def charsPrefixCI : List Char → List Char → Bool
  | [], _ => true
  | _ :: _, [] => false
  | a :: as, b :: bs => a.toLower = b.toLower && charsPrefixCI as bs

/-- Lexicographic (codepoint-wise) strict order on character lists - the
model of string comparison under the store's default binary collation,
as used by `ORDER BY "source_file"`. -/
def charsLt : List Char → List Char → Bool
  | [], [] => false
  | [], _ :: _ => true
  | _ :: _, [] => false
  | a :: as, b :: bs =>
    if a.toNat < b.toNat then true
    else if b.toNat < a.toNat then false
    else charsLt as bs

/-- Substring test on character lists (`needle` occurs contiguously in
`hay`), the model of SQL `LIKE '%needle%'` and `CONTAINS(hay, needle)`
when `needle` has no wildcard metacharacters. -/
def charsInfix (needle : List Char) : List Char → Bool
  | [] => needle.isEmpty
  | c :: rest => charsPrefix needle (c :: rest) || charsInfix needle rest

/-- Substring test on strings. -/
def strContains (hay needle : String) : Bool :=
  charsInfix needle.data hay.data

/-- Model of Python `str.strip()`: drop `\s` characters from both ends. -/
def pyStripChars (l : List Char) : List Char :=
  ((l.dropWhile isPySpace).reverse.dropWhile isPySpace).reverse

/-- Model of Python `str.strip()` on strings. -/
def pyStrip (s : String) : String :=
  ⟨pyStripChars s.data⟩

/-- Model of Python `str.upper()` and of SQL `UPPER(...)` (ASCII). -/
def pyUpper (s : String) : String :=
  ⟨s.data.map Char.toUpper⟩

/-- Replace every non-overlapping occurrence of the nonempty pattern
`o :: os` by `new`, scanning left to right - the core of Python
`str.replace(old, new)` for a nonempty `old`.  The fuel argument makes the
recursion structural; each step consumes at least one input character, so
with fuel `l.length` the fuel-exhausted branch is unreachable. -/
def replaceFuel (o : Char) (os new : List Char) : Nat → List Char → List Char
  | _, [] => []
  | 0, l => l
  | fuel + 1, c :: rest =>
    if charsPrefix (o :: os) (c :: rest) then
      new ++ replaceFuel o os new fuel (rest.drop os.length)
    else
      c :: replaceFuel o os new fuel rest

/-- Model of Python `str.replace(old, new)`; the program only calls it with
a nonempty `old` (the empty-`old` edge case of Python does not occur). -/
def pyReplace (s old new : String) : String :=
  match old.data with
  | [] => s
  | o :: os => ⟨replaceFuel o os new.data s.data.length s.data⟩

/-- Model of Python `str.split()` (split on whitespace runs, no empty
tokens); fuelled structural recursion, one character consumed per step. -/
def splitWsFuel : Nat → List Char → List (List Char)
  | _, [] => []
  | 0, _ => []
  | fuel + 1, c :: rest =>
    if isPySpace c then splitWsFuel fuel rest
    else (c :: rest.takeWhile (fun x => !isPySpace x)) ::
      splitWsFuel fuel (rest.dropWhile (fun x => !isPySpace x))

/-- Model of Python `str.split()`. -/
def splitWsChars (l : List Char) : List (List Char) :=
  splitWsFuel l.length l

/-- Model of Python `re.sub(r'\s+', ' ', s)`: collapse every whitespace run
to a single space; fuelled structural recursion. -/
def collapseWsFuel : Nat → List Char → List Char
  | _, [] => []
  | 0, l => l
  | fuel + 1, c :: rest =>
    if isPySpace c then ' ' :: collapseWsFuel fuel (rest.dropWhile isPySpace)
    else c :: collapseWsFuel fuel rest

/-- `collapseWsFuel` on strings. -/
def collapseWs (s : String) : String :=
  ⟨collapseWsFuel s.data.length s.data⟩

/-- Decimal representation of a natural number (the model of Python
`f"{n}"`); fuelled structural recursion on the digit count. -/
def natDigits : Nat → Nat → List Char
  | 0, _ => []
  | fuel + 1, n =>
    if n = 0 then []
    else natDigits fuel (n / 10) ++ [Char.ofNat (48 + n % 10)]

/-- Decimal string of a natural number. -/
def natToStr (n : Nat) : String :=
  if n = 0 then "0" else ⟨natDigits (n + 1) n⟩

/-- Python slice `s[:n]`. -/
def takeChars (n : Nat) (s : String) : String :=
  ⟨s.data.take n⟩

/-- Python slice `s[-n:]`. -/
def lastChars (n : Nat) (s : String) : String :=
  ⟨s.data.drop (s.data.length - n)⟩

/-- Regular-expression abstract syntax, covering exactly the constructs in
the program's patterns.  `strCI` is a literal under `re.IGNORECASE`;
`starCls`/`plusCls`/`plusClsLazy` are greedy `*`, greedy `+` and lazy `+?`
over a single character class; `plusLazy` is lazy `+?` over a compound
subpattern; `grp` is a numbered capturing group; `wordB` is `\b`; `endA`
is `$`; `look` is the lookahead `(?=...)`. -/
inductive RE where
  | strLit (s : List Char) : RE
  | strCI (s : List Char) : RE
  | ch (p : Char → Bool) : RE
  | cat (a b : RE) : RE
  | alt (a b : RE) : RE
  | optR (a : RE) : RE
  | starCls (p : Char → Bool) : RE
  | plusCls (p : Char → Bool) : RE
  | plusClsLazy (p : Char → Bool) : RE
  | plusLazy (a : RE) : RE
  | grp (n : Nat) (a : RE) : RE
  | wordB : RE
  | endA : RE
  | look (a : RE) : RE

/-- A matcher state: remaining input, the previously consumed character
(for `\b`), and the captures recorded so far (group number, captured
characters; most recent first). -/
structure MSt where
  rest : List Char
  prev : Option Char
  caps : List (Nat × List Char)

/-- The character that precedes the remaining input after consuming
`consumed`, falling back to the previous one when nothing was consumed. -/
def lastPrev (consumed : List Char) (prev : Option Char) : Option Char :=
  match consumed.getLast? with
  | some c => some c
  | none => prev

/-- `\b` holds between `prev` and the head of `cs` iff exactly one side is
a word character. -/
def wordBoundaryAt (prev : Option Char) (cs : List Char) : Bool :=
  (match prev with | some c => isWordChar c | none => false) !=
  (match cs with | c :: _ => isWordChar c | [] => false)

/-- Python `$` (no `re.MULTILINE`): end of input or just before a single
trailing newline. -/
def atEnd : List Char → Bool
  | [] => true
  | [c] => c = '\n'
  | _ => false

/-- Feed each candidate state to the continuation in order, committing to
the first that succeeds - the backtracking step over a finite list of
alternatives for a single character-class quantifier. -/
def firstSt (k : MSt → Option MSt) : List MSt → Option MSt
  | [] => none
  | t :: ts =>
    match k t with
    | some r => some r
    | none => firstSt k ts

/-- One-or-more lazy iteration of a step function: run one iteration, try
the overall continuation first, then iterate again - the backtracking
order of `+?` over a compound subpattern.  A further iteration is
attempted only from a state that consumed input (as the engine abandons
zero-width repeats); therefore each recursive call strictly shrinks the
input and with fuel `cs.length + 1` the fuel-exhausted branch is
unreachable. -/
def plusIter
    (step : List Char → Option Char → List (Nat × List Char) →
      (MSt → Option MSt) → Option MSt) :
    Nat → List Char → Option Char → List (Nat × List Char) →
      (MSt → Option MSt) → Option MSt
  | 0, _, _, _, _ => none
  | fuel + 1, cs, prev, caps, k =>
    step cs prev caps (fun t =>
      match k t with
      | some r => some r
      | none =>
        if t.rest.length < cs.length then
          plusIter step fuel t.rest t.prev t.caps k
        else none)

/-- Backtracking matcher in continuation-passing style: try to match the
pattern against a prefix of `cs` and pass each resulting state to the
continuation `k`, in CPython `re` priority order (alternation left-first,
greedy quantifiers longest-first, lazy quantifiers shortest-first),
returning the first overall success.  `prev` is the previously consumed
character (for `\b`), `caps` the captures recorded so far. -/
def reRun : RE → List Char → Option Char → List (Nat × List Char) →
    (MSt → Option MSt) → Option MSt
  | .strLit s, cs, prev, caps, k =>
    if charsPrefix s cs then
      k ⟨cs.drop s.length, lastPrev (cs.take s.length) prev, caps⟩
    else none
  | .strCI s, cs, prev, caps, k =>
    if charsPrefixCI s cs then
      k ⟨cs.drop s.length, lastPrev (cs.take s.length) prev, caps⟩
    else none
  | .ch p, cs, _, caps, k =>
    match cs with
    | [] => none
    | c :: rest => if p c then k ⟨rest, some c, caps⟩ else none
  | .cat a b, cs, prev, caps, k =>
    reRun a cs prev caps (fun t => reRun b t.rest t.prev t.caps k)
  | .alt a b, cs, prev, caps, k =>
    match reRun a cs prev caps k with
    | some r => some r
    | none => reRun b cs prev caps k
  | .optR a, cs, prev, caps, k =>
    match reRun a cs prev caps k with
    | some r => some r
    | none => k ⟨cs, prev, caps⟩
  | .starCls p, cs, prev, caps, k =>
    firstSt k ((List.range ((cs.takeWhile p).length + 1)).reverse.map
      (fun j => ⟨cs.drop j, lastPrev (cs.take j) prev, caps⟩))
  | .plusCls p, cs, prev, caps, k =>
    firstSt k (((List.range (cs.takeWhile p).length).map
      (fun i => (cs.takeWhile p).length - i)).map
      (fun j => ⟨cs.drop j, lastPrev (cs.take j) prev, caps⟩))
  | .plusClsLazy p, cs, prev, caps, k =>
    firstSt k (((List.range (cs.takeWhile p).length).map (fun i => i + 1)).map
      (fun j => ⟨cs.drop j, lastPrev (cs.take j) prev, caps⟩))
  | .plusLazy a, cs, prev, caps, k =>
    plusIter (fun cs2 prev2 caps2 k2 => reRun a cs2 prev2 caps2 k2)
      (cs.length + 1) cs prev caps k
  | .grp n a, cs, prev, caps, k =>
    reRun a cs prev caps (fun t =>
      k ⟨t.rest, t.prev, (n, cs.take (cs.length - t.rest.length)) :: t.caps⟩)
  | .wordB, cs, prev, caps, k =>
    if wordBoundaryAt prev cs then k ⟨cs, prev, caps⟩ else none
  | .endA, cs, prev, caps, k =>
    if atEnd cs then k ⟨cs, prev, caps⟩ else none
  | .look a, cs, prev, caps, k =>
    match reRun a cs prev caps some with
    | some _ => k ⟨cs, prev, caps⟩
    | none => none

/-- Leftmost search: try a full match at each start position in turn and
return the captures of the first (highest-priority) match, as
`re.search` does. -/
def searchFrom (r : RE) : List Char → Option Char → Option (List (Nat × List Char))
  | [], prev =>
    match reRun r [] prev [] some with
    | some t => some t.caps
    | none => none
  | c :: rest, prev =>
    match reRun r (c :: rest) prev [] some with
    | some t => some t.caps
    | none => searchFrom r rest (some c)

/-- `re.search(pattern, s)`: leftmost match, returning its captures. -/
def reSearch (r : RE) (s : List Char) : Option (List (Nat × List Char)) :=
  searchFrom r s none

/-- `match.group(n)`: the most recently recorded capture of group `n`. -/
def capGroup (caps : List (Nat × List Char)) (n : Nat) : Option (List Char) :=
  (caps.find? (fun e => e.1 = n)).map (fun e => e.2)

/-- Sequence a list of regex fragments (`foldr` with the empty literal as
the unit). -/
def reSeq (l : List RE) : RE :=
  l.foldr .cat (.strLit [])

/-- Case-sensitive string literal fragment. -/
def sLit (s : String) : RE := .strLit s.data

/-- Case-insensitive string literal fragment. -/
def sCI (s : String) : RE := .strCI s.data

/-! ### The query classifier of `query_cortex_search_service`
(`local_streamlit_app.py`, lines 258-389). -/

/-- An optional `s`/`S` (the `s?` tail of an `IGNORECASE` pattern). -/
def optS : RE := .optR (.ch (fun c => c = 's' || c = 'S'))

/-- `\b(SB|sb|Senate Bill|senate bill)\s*(\d+)\b` with `re.IGNORECASE`
(line 261). -/
def billPatSB : RE :=
  reSeq [.wordB,
    .grp 1 (.alt (sCI "SB") (.alt (sCI "sb")
      (.alt (sCI "Senate Bill") (sCI "senate bill")))),
    .starCls isPySpace, .grp 2 (.plusCls Char.isDigit), .wordB]

/-- `\b(HB|hb|House Bill|house bill)\s*(\d+)\b` with `re.IGNORECASE`
(line 263). -/
def billPatHB : RE :=
  reSeq [.wordB,
    .grp 1 (.alt (sCI "HB") (.alt (sCI "hb")
      (.alt (sCI "House Bill") (sCI "house bill")))),
    .starCls isPySpace, .grp 2 (.plusCls Char.isDigit), .wordB]

/-- Lines 266-273: scan the two specific-bill patterns in order; on the
first match return `f"{btype}{match.group(2)}"` (the canonical id built
from the pattern's fixed type tag and the captured number). -/
def extractBillQuery (query : String) : Option String :=
  match reSearch billPatSB query.data with
  | some caps =>
    match capGroup caps 2 with
    | some num => some ("SB" ++ ⟨num⟩)
    | none => none
  | none =>
    match reSearch billPatHB query.data with
    | some caps =>
      match capGroup caps 2 with
      | some num => some ("HB" ++ ⟨num⟩)
      | none => none
    | none => none

/-- `(?:recent|latest|any|tell|show|about|summary)` (`IGNORECASE`). -/
def browseKeywords : RE :=
  .alt (sCI "recent") (.alt (sCI "latest") (.alt (sCI "any")
    (.alt (sCI "tell") (.alt (sCI "show") (.alt (sCI "about") (sCI "summary"))))))

/-- `(?:recent|latest|filed|new)` (`IGNORECASE`). -/
def recencyKeywords : RE :=
  .alt (sCI "recent") (.alt (sCI "latest") (.alt (sCI "filed") (sCI "new")))

/-- `.` outside `re.DOTALL`: any character but a newline. -/
def anyNotNL : Char → Bool := fun c => c != '\n'

/-- The six `bill_type_patterns` of lines 302-312, in source order, each
paired with the bill type it selects. -/
def billTypePats : List (RE × String) :=
  [(reSeq [browseKeywords, .starCls anyNotNL,
      .alt (sCI "house bill") (sCI "hb"), optS], "HB"),
   (reSeq [.alt (sCI "house bill") (sCI "hb"), optS,
      .starCls anyNotNL, recencyKeywords], "HB"),
   (reSeq [browseKeywords, .starCls anyNotNL,
      .alt (sCI "senate bill") (sCI "sb"), optS], "SB"),
   (reSeq [.alt (sCI "senate bill") (sCI "sb"), optS,
      .starCls anyNotNL, recencyKeywords], "SB"),
   (reSeq [.wordB, .alt (sCI "house bill") (sCI "hb"), optS, .wordB], "HB"),
   (reSeq [.wordB, .alt (sCI "senate bill") (sCI "sb"), optS, .wordB], "SB")]

/-- Lines 314-318: first bill-type pattern that matches anywhere in the
question wins. -/
def billTypeMatch (query : String) : Option String :=
  (billTypePats.find? (fun p => (reSearch p.1 query.data).isSome)).map
    (fun p => p.2)

/-- The capture class `[a-zA-Z.\s-]` of the sponsor patterns. -/
def sponsorCls : Char → Bool := fun c =>
  c.isAlpha || c = '.' || isPySpace c || c = '-'

/-- `(?:bills? (?:by|from|sponsored by)|what (?:bills|else) (?:has|have|did))?\s*(?:senator[s]?\s+([a-zA-Z.\s-]+))`
with `re.IGNORECASE` (line 349). -/
def sponsorPat1 : RE :=
  reSeq [.optR (.alt
      (reSeq [sCI "bill", optS, sLit " ",
        .alt (sCI "by") (.alt (sCI "from") (sCI "sponsored by"))])
      (reSeq [sCI "what", sLit " ", .alt (sCI "bills") (sCI "else"), sLit " ",
        .alt (sCI "has") (.alt (sCI "have") (sCI "did"))])),
    .starCls isPySpace, sCI "senator", optS, .plusCls isPySpace,
    .grp 1 (.plusCls sponsorCls)]

/-- `(?:what|any|other)\s+bills?\s+(?:by|from|sponsored by)\s+([a-zA-Z.\s-]+?)(?:\s+(?:sponsor|file|author)|[?.,]|$)`
with `re.IGNORECASE` (line 350). -/
def sponsorPat2 : RE :=
  reSeq [.alt (sCI "what") (.alt (sCI "any") (sCI "other")),
    .plusCls isPySpace, sCI "bill", optS, .plusCls isPySpace,
    .alt (sCI "by") (.alt (sCI "from") (sCI "sponsored by")),
    .plusCls isPySpace, .grp 1 (.plusClsLazy sponsorCls),
    .alt (reSeq [.plusCls isPySpace,
        .alt (sCI "sponsor") (.alt (sCI "file") (sCI "author"))])
      (.alt (.ch (fun c => c = '?' || c = '.' || c = ',')) .endA)]

/-- Lines 353-358: first sponsor pattern that matches wins; the captured
name is returned stripped (`match.group(1).strip()`). -/
def sponsorNameMatch (query : String) : Option String :=
  match reSearch sponsorPat1 query.data with
  | some caps => (capGroup caps 1).map (fun g => pyStrip ⟨g⟩)
  | none =>
    match reSearch sponsorPat2 query.data with
    | some caps => (capGroup caps 1).map (fun g => pyStrip ⟨g⟩)
    | none => none

/-- The retrieval mode chosen for a question; `freeText` keeps the raw
question because the fallback query interpolates it into `CONTAINS`. -/
inductive QMode where
  | specific (billQuery : String)
  | billType (billType : String)
  | sponsor (name : String)
  | freeText (question : String)
deriving DecidableEq

/-- The `if bill_query / elif bill_type / elif sponsor_name / else`
cascade of lines 275-389: the first matching rule alone decides the mode;
a sponsor capture that strips to the empty string is falsy in Python and
falls through to the free-text branch. -/
def classify (query : String) : QMode :=
  match extractBillQuery query with
  | some bq => .specific bq
  | none =>
    match billTypeMatch query with
    | some bt => .billType bt
    | none =>
      match sponsorNameMatch query with
      | some sp => if sp = "" then .freeText query else .sponsor sp
      | none => .freeText query

/-! ### Metadata extraction from a PDF's first page
(`local_pdf_processor.py`, `extract_metadata_from_first_page`,
lines 23-79). -/

/-- A single `\d`. -/
def dCh : RE := .ch Char.isDigit

/-- `(\d{2}/\d{2}/\d{4}\s+\d{1,2}:\d{2}:\d{2}\s+(?:AM|PM)\s+WFP\d{3})`
(line 31); `\d{1,2}` is one digit with a greedy optional second. -/
def datePat : RE :=
  .grp 1 (reSeq [dCh, dCh, sLit "/", dCh, dCh, sLit "/", dCh, dCh, dCh, dCh,
    .plusCls isPySpace, dCh, .optR dCh, sLit ":", dCh, dCh, sLit ":", dCh, dCh,
    .plusCls isPySpace, .alt (sLit "AM") (sLit "PM"),
    .plusCls isPySpace, sLit "WFP", dCh, dCh, dCh])

/-- `SUBTITLE:?\s*([^\n]+)` (line 44, no flags). -/
def subtitlePat1 : RE :=
  reSeq [sLit "SUBTITLE", .optR (sLit ":"), .starCls isPySpace,
    .grp 1 (.plusCls anyNotNL)]

/-- `Subtitle:?\s*([^\n]+)` (line 45, no flags). -/
def subtitlePat2 : RE :=
  reSeq [sLit "Subtitle", .optR (sLit ":"), .starCls isPySpace,
    .grp 1 (.plusCls anyNotNL)]

/-- `SUBTITLE\s+(?:OF\s+)?(?:THE\s+)?(?:BILL)?:?\s*([^\n]+)` (line 46,
no flags). -/
def subtitlePat3 : RE :=
  reSeq [sLit "SUBTITLE", .plusCls isPySpace,
    .optR (reSeq [sLit "OF", .plusCls isPySpace]),
    .optR (reSeq [sLit "THE", .plusCls isPySpace]),
    .optR (sLit "BILL"), .optR (sLit ":"), .starCls isPySpace,
    .grp 1 (.plusCls anyNotNL)]

/-- The capture class `[A-Za-z\s,.-]` of the first-page sponsor patterns. -/
def nameCls : Char → Bool := fun c =>
  c.isAlpha || isPySpace c || c = ',' || c = '.' || c = '-'

/-- The terminator `(?:\n|,|\s{2,})` of the first-page sponsor patterns
(`\s{2,}` is one `\s` followed by a greedy `\s+`). -/
def sponsorTerm : RE :=
  .alt (sLit "\n") (.alt (sLit ",")
    (reSeq [.ch isPySpace, .plusCls isPySpace]))

/-- The capture `([A-Z][A-Za-z\s,.-]+?)` of the first-page sponsor
patterns. -/
def sponsorNameCap : RE :=
  .grp 1 (reSeq [.ch Char.isUpper, .plusClsLazy nameCls])

/-- `By(?:\sRepresentative|\sSenator)\s+([A-Z][A-Za-z\s,.-]+?)(?:\n|,|\s{2,})`
(line 58, no flags). -/
def firstPageSponsorPat1 : RE :=
  reSeq [sLit "By",
    .alt (reSeq [.ch isPySpace, sLit "Representative"])
      (reSeq [.ch isPySpace, sLit "Senator"]),
    .plusCls isPySpace, sponsorNameCap, sponsorTerm]

/-- `Sponsored by:\s*([A-Z][A-Za-z\s,.-]+?)(?:\n|,|\s{2,})` (line 59,
no flags). -/
def firstPageSponsorPat2 : RE :=
  reSeq [sLit "Sponsored by:", .starCls isPySpace, sponsorNameCap, sponsorTerm]

/-- `SPONSOR(?:ED)?\s*(?:BY)?\s*:?\s*([A-Z][A-Za-z\s,.-]+?)(?:\n|,|\s{2,})`
(line 60, no flags). -/
def firstPageSponsorPat3 : RE :=
  reSeq [sLit "SPONSOR", .optR (sLit "ED"), .starCls isPySpace,
    .optR (sLit "BY"), .starCls isPySpace, .optR (sLit ":"),
    .starCls isPySpace, sponsorNameCap, sponsorTerm]

/-- First pattern of an ordered list whose search succeeds, returning the
stripped first capture - the shared shape of the subtitle and sponsor
loops (lines 50-54 and 64-68). -/
def firstCapture (pats : List RE) (window : String) : Option String :=
  match pats with
  | [] => none
  | p :: rest =>
    match reSearch p window.data with
    | some caps => (capGroup caps 1).map (fun g => pyStrip ⟨g⟩)
    | none => firstCapture rest window

/-- The subtitle loop over `subtitle_patterns` applied to
`first_page_text[:1500]` (lines 43-54). -/
def extractSubtitle (first_page_text : String) : Option String :=
  firstCapture [subtitlePat1, subtitlePat2, subtitlePat3]
    (takeChars 1500 first_page_text)

/-- The sponsor loop over `sponsor_patterns` applied to
`first_page_text[:1000]` (lines 57-68). -/
def extractFirstPageSponsor (first_page_text : String) : Option String :=
  firstCapture [firstPageSponsorPat1, firstPageSponsorPat2, firstPageSponsorPat3]
    (takeChars 1000 first_page_text)

/-- `' '.join(date_str.split()[:-1])` (line 37): drop the trailing
`WFPxxx` token and rejoin with single spaces. -/
def dropLastToken (s : String) : String :=
  String.intercalate " " ((splitWsChars s.data).dropLast.map (fun l => ⟨l⟩))

/-- The metadata record returned by `extract_metadata_from_first_page`;
`τ` is the timestamp type produced by the external `pd.to_datetime`. -/
structure PdfMeta (τ : Type) where
  date_filed : Option τ
  bill_subtitle : Option String
  bill_sponsor : Option String
deriving DecidableEq

/-- `extract_metadata_from_first_page` (lines 23-79) as a function of the
first page's text.  PDF reading is an external collaborator; the date
parser `pd.to_datetime` is injected (`none` models its raising branch,
which the source catches, leaving the field `None`). -/
def extract_metadata_from_first_page_text {τ : Type}
    (pdToDatetime : String → Option τ) (first_page_text : String) :
    PdfMeta τ :=
  let date_filed :=
    match reSearch datePat (lastChars 500 first_page_text).data with
    | some caps =>
      match capGroup caps 1 with
      | some ds => pdToDatetime (dropLastToken ⟨ds⟩)
      | none => none
    | none => none
  { date_filed := date_filed
    bill_subtitle := extractSubtitle first_page_text
    bill_sponsor := extractFirstPageSponsor first_page_text }

/-! ### Chunk-level bill info and the context formatter
(`local_streamlit_app.py`, `extract_bill_info_from_chunk` lines 489-521
and `format_bill_header` lines 523-548). -/

/-- `By:\s*(Senator[s]?\s+[^\\n]+)` (line 499, no flags).  In the source
this raw string makes the class `[^\\n]` exclude the backslash and the
letter `n` - not the newline. -/
def chunkSponsorPat : RE :=
  reSeq [sLit "By:", .starCls isPySpace,
    .grp 1 (reSeq [sLit "Senator", .optR (sLit "s"), .plusCls isPySpace,
      .plusCls (fun c => c != '\\' && c != 'n')])]

/-- `Subtitle\s*\n((?:[^\n]+\n?)+?)(?=\n\s*\n|BE IT ENACTED)` (line 504). -/
def chunkSubtitlePat : RE :=
  reSeq [sLit "Subtitle", .starCls isPySpace, sLit "\n",
    .grp 1 (.plusLazy (reSeq [.plusCls anyNotNL, .optR (sLit "\n")])),
    .look (.alt (reSeq [sLit "\n", .starCls isPySpace, sLit "\n"])
      (sLit "BE IT ENACTED"))]

/-- `(\d{2}/\d{2}/\d{4})` (line 509). -/
def chunkDatePat : RE :=
  .grp 1 (reSeq [dCh, dCh, sLit "/", dCh, dCh, sLit "/", dCh, dCh, dCh, dCh])

/-- `AN ACT\s+(.+?)(?=\n\s*\n\s*Subtitle|BE IT ENACTED)` with `re.DOTALL`
(line 514): the lazy dot matches any character. -/
def chunkSummaryPat : RE :=
  reSeq [sLit "AN ACT", .plusCls isPySpace,
    .grp 1 (.plusClsLazy (fun _ => true)),
    .look (.alt (reSeq [sLit "\n", .starCls isPySpace, sLit "\n",
        .starCls isPySpace, sLit "Subtitle"])
      (sLit "BE IT ENACTED"))]

/-- The record built by `extract_bill_info_from_chunk`; `sponsor` is a
plain string because the source initialises it to a non-null default. -/
structure BillInfo where
  sponsor : String
  subtitle : Option String
  date_filed : Option String
  summary : Option String
deriving DecidableEq

/-- `extract_bill_info_from_chunk` (lines 489-521).  The sponsor field
keeps its `'Unknown Sponsor'` default when the pattern does not match;
the summary is stripped and its whitespace runs collapsed. -/
def extract_bill_info_from_chunk (chunk : String) : BillInfo :=
  { sponsor :=
      match reSearch chunkSponsorPat chunk.data with
      | some caps =>
        match capGroup caps 1 with
        | some g => pyStrip ⟨g⟩
        | none => "Unknown Sponsor"
      | none => "Unknown Sponsor"
    subtitle :=
      match reSearch chunkSubtitlePat chunk.data with
      | some caps => (capGroup caps 1).map (fun g => pyStrip ⟨g⟩)
      | none => none
    date_filed :=
      match reSearch chunkDatePat chunk.data with
      | some caps => (capGroup caps 1).map (fun g => (⟨g⟩ : String))
      | none => none
    summary :=
      match reSearch chunkSummaryPat chunk.data with
      | some caps => (capGroup caps 1).map (fun g => collapseWs (pyStrip ⟨g⟩))
      | none => none }

/-- Python truthiness of an optional string (`None` and `''` are falsy). -/
def optTruthy : Option String → Bool
  | some s => s ≠ ""
  | none => false

/-- `get_bill_url` (lines 642-644). -/
def get_bill_url (bill_name : String) : String :=
  "https://arkleg.state.ar.us/Home/FTPDocument?path=%2FBills%2F2025R%2FPublic%2F"
    ++ bill_name ++ ".pdf"

/-- `format_bill_reference` (lines 646-649): a markdown link label and
URL. -/
def format_bill_reference (bill_name : String) : String :=
  "[" ++ bill_name ++ "](" ++ get_bill_url bill_name ++ ")"

/-- The `meta_parts` list of `format_bill_header` (lines 539-543):
sponsor and filing date lines, kept only when truthy. -/
def metaParts (info : BillInfo) : List String :=
  (if info.sponsor ≠ "" then ["**Sponsor**: " ++ info.sponsor] else []) ++
  (match info.date_filed with
   | some d => if d ≠ "" then ["**Filed**: " ++ d] else []
   | none => [])

/-- The `header_parts` list of `format_bill_header` (lines 525-546): bill
reference, summary when truthy, subtitle when truthy and distinct from
the summary, then the joined metadata line when nonempty. -/
def headerParts (bill_name : String) (info : BillInfo) : List String :=
  ["## " ++ format_bill_reference bill_name] ++
  (match info.summary with
   | some s => if s ≠ "" then ["**Summary**: " ++ s] else []
   | none => []) ++
  (match info.subtitle with
   | some st =>
     if st ≠ "" && (!optTruthy info.summary || info.subtitle != info.summary)
     then ["**Subtitle**: " ++ st] else []
   | none => []) ++
  (if (metaParts info).isEmpty then []
   else [String.intercalate " | " (metaParts info)])

/-- `format_bill_header` (lines 523-548). -/
def format_bill_header (bill_name : String) (info : BillInfo) : String :=
  String.intercalate "\n\n" (headerParts bill_name info)

/-! ### The logical `BILL_CHUNKS` table and the four retrieval queries.

The queries of `query_cortex_search_service` select only the columns
`"chunk"`, `"source_file"`, `"chunk_index"`, so a row is modelled by those
three.  `ORDER BY` is modelled with Mathlib's (stable) insertion sort;
SQL leaves the order of key-equal rows open, and no theorem below depends
on how such ties are resolved.  Snowflake's `LIKE` and `CONTAINS` are
case-sensitive under the default collation, and `LIKE '%x%'` is substring
containment when `x` has no wildcard metacharacters - the interpolated
values here are built from the classifier's capture classes, which
exclude `%`, `_` and `\`. -/

/-- A row of the logical `BILL_CHUNKS` table. -/
structure Row where
  chunk : String
  source_file : String
  chunk_index : Nat
deriving DecidableEq, Repr

/-- The sort key of `ORDER BY "chunk_index"`. -/
def idxLe (a b : Row) : Prop := a.chunk_index ≤ b.chunk_index

instance : DecidableRel idxLe := fun a b => Nat.decLe _ _

instance : IsTotal Row idxLe := ⟨fun a b => Nat.le_total _ _⟩

instance : IsTrans Row idxLe := ⟨fun _ _ _ => Nat.le_trans⟩

/-- The sort key of `ORDER BY "source_file", "chunk_index"`. -/
def fileIdxLe (a b : Row) : Prop :=
  charsLt a.source_file.data b.source_file.data = true ∨
    (a.source_file = b.source_file ∧ a.chunk_index ≤ b.chunk_index)

instance : DecidableRel fileIdxLe := fun _ _ => by
  unfold fileIdxLe
  infer_instance

theorem charsLt_irrefl : ∀ a : List Char, charsLt a a = false := by
  intro a
  induction a with
  | nil => rfl
  | cons x xs ih => simp [charsLt, ih]

theorem charsLt_trans : ∀ {a b c : List Char}, charsLt a b = true →
    charsLt b c = true → charsLt a c = true := by
  intro a
  induction a with
  | nil =>
    intro b c hab hbc
    cases b with
    | nil => simp [charsLt] at hab
    | cons y ys =>
      cases c with
      | nil => simp [charsLt] at hbc
      | cons z zs => rfl
  | cons x xs ih =>
    intro b c hab hbc
    cases b with
    | nil => simp [charsLt] at hab
    | cons y ys =>
      cases c with
      | nil => simp [charsLt] at hbc
      | cons z zs =>
        simp only [charsLt] at hab hbc ⊢
        by_cases h1 : x.toNat < y.toNat
        · by_cases h2 : y.toNat < z.toNat
          · rw [if_pos (by omega)]
          · rw [if_neg h2] at hbc
            by_cases h3 : z.toNat < y.toNat
            · rw [if_pos h3] at hbc
              exact absurd hbc (by simp)
            · rw [if_pos (by omega)]
        · rw [if_neg h1] at hab
          by_cases h1' : y.toNat < x.toNat
          · rw [if_pos h1'] at hab
            exact absurd hab (by simp)
          · rw [if_neg h1'] at hab
            by_cases h2 : y.toNat < z.toNat
            · rw [if_pos (by omega)]
            · rw [if_neg h2] at hbc
              by_cases h3 : z.toNat < y.toNat
              · rw [if_pos h3] at hbc
                exact absurd hbc (by simp)
              · rw [if_neg h3] at hbc
                rw [if_neg (by omega), if_neg (by omega)]
                exact ih hab hbc

theorem charsLt_eq_of_not_lt : ∀ {a b : List Char}, charsLt a b = false →
    charsLt b a = false → a = b := by
  intro a
  induction a with
  | nil =>
    intro b hab _
    cases b with
    | nil => rfl
    | cons y ys => simp [charsLt] at hab
  | cons x xs ih =>
    intro b hab hba
    cases b with
    | nil => simp [charsLt] at hba
    | cons y ys =>
      simp only [charsLt] at hab hba
      by_cases h1 : x.toNat < y.toNat
      · rw [if_pos h1] at hab
        exact absurd hab (by simp)
      · by_cases h2 : y.toNat < x.toNat
        · rw [if_pos h2] at hba
          exact absurd hba (by simp)
        · rw [if_neg h1, if_neg h2] at hab
          rw [if_neg h2, if_neg h1] at hba
          have hn : x.toNat = y.toNat := by omega
          have hx : x = y := Char.eq_of_val_eq (UInt32.ext hn)
          rw [hx, ih hab hba]

/-- Strings with equal character data are equal. -/
theorem stringDataEq {s t : String} (h : s.data = t.data) : s = t := by
  cases s with
  | mk d1 =>
    cases t with
    | mk d2 => exact congrArg String.mk h

theorem charsLt_asymm {a b : List Char} (h : charsLt a b = true) :
    charsLt b a = false := by
  cases hb : charsLt b a
  · rfl
  · exact absurd (charsLt_trans h hb) (by simp [charsLt_irrefl])

instance : IsTotal Row fileIdxLe := by
  constructor
  intro a b
  cases h1 : charsLt a.source_file.data b.source_file.data
  · cases h2 : charsLt b.source_file.data a.source_file.data
    · have he : a.source_file = b.source_file :=
        stringDataEq (charsLt_eq_of_not_lt h1 h2)
      rcases Nat.le_total a.chunk_index b.chunk_index with h3 | h3
      · exact Or.inl (Or.inr ⟨he, h3⟩)
      · exact Or.inr (Or.inr ⟨he.symm, h3⟩)
    · exact Or.inr (Or.inl h2)
  · exact Or.inl (Or.inl h1)

instance : IsTrans Row fileIdxLe := by
  constructor
  intro a b c hab hbc
  rcases hab with h1 | ⟨h1, h1i⟩
  · rcases hbc with h2 | ⟨h2, -⟩
    · exact Or.inl (charsLt_trans h1 h2)
    · exact Or.inl (h2 ▸ h1)
  · rcases hbc with h2 | ⟨h2, h2i⟩
    · exact Or.inl (h1 ▸ h2)
    · exact Or.inr ⟨h1.trans h2, h1i.trans h2i⟩

/-- The greatest string of a list - the `source_file` that receives
`ROW_NUMBER() OVER (ORDER BY "source_file" DESC) = 1`. -/
def strMax : List String → Option String
  | [] => none
  | s :: t =>
    match strMax t with
    | none => some s
    | some m => if charsLt s.data m.data then some m else some s

/-- A row of the per-document partition with the least `chunk_index` - the
row that receives `ROW_NUMBER() OVER (PARTITION BY "source_file" ORDER BY
"chunk_index") = 1`. -/
def minIdxRow : List Row → Option Row
  | [] => none
  | r :: t =>
    match minIdxRow t with
    | none => some r
    | some a => if r.chunk_index < a.chunk_index then some r else some a

/-- The rows of `tbl` whose `"source_file"` equals `sf`. -/
def rowsOf (tbl : List Row) (sf : String) : List Row :=
  tbl.filter (fun r => r.source_file = sf)

/-- The first chunk of the document `sf` (its minimal-`chunk_index` row). -/
def firstChunkRow (tbl : List Row) (sf : String) : Option Row :=
  minIdxRow (rowsOf tbl sf)

/-- The specific-bill `WHERE` test
`UPPER(b."source_file") = '{bill_query.upper()}.PDF'` (line 283). -/
def specMatches (bq : String) (r : Row) : Bool :=
  pyUpper r.source_file = pyUpper bq ++ ".PDF"

/-- The specific-bill query of lines 280-287: filter on the canonical id,
`ORDER BY "chunk_index"`, `LIMIT num_retrieved_chunks`. -/
def sqlSpecific (tbl : List Row) (bq : String) (n : Nat) : List Row :=
  (List.insertionSort idxLe (tbl.filter (specMatches bq))).take n

/-- The bill-type browse query of lines 326-338: the document whose
`"source_file"` matches `LIKE '{bill_type}%'` and is ranked first by
`ORDER BY "source_file" DESC`, joined back to all its chunks, `ORDER BY
"chunk_index"` (no limit). -/
def sqlBillType (tbl : List Row) (bt : String) : List Row :=
  match strMax ((tbl.filter (fun r => charsPrefix bt.data r.source_file.data)).map
      (fun r => r.source_file)) with
  | none => []
  | some m => List.insertionSort idxLe (rowsOf tbl m)

/-- The sponsor-browse selection test of lines 365-378: the document's
rank-1 (first) chunk must contain `'By:'` and the captured name, both as
case-sensitive `LIKE '%...%'` substring tests. -/
def sponsorSelected (tbl : List Row) (name sf : String) : Bool :=
  match firstChunkRow tbl sf with
  | some r0 => strContains r0.chunk "By:" && strContains r0.chunk name
  | none => false

/-- The sponsor-browse query of lines 365-378: `SELECT DISTINCT` every
chunk of every selected document, `ORDER BY "source_file",
"chunk_index"`. -/
def sqlSponsor (tbl : List Row) (name : String) : List Row :=
  List.insertionSort fileIdxLe
    ((tbl.filter (fun r => sponsorSelected tbl name r.source_file)).dedup)

/-- The free-text fallback query of lines 382-389:
`CONTAINS(b."chunk", '{query}')`, `ORDER BY "chunk_index"`, `LIMIT
num_retrieved_chunks`. -/
def sqlFreeText (tbl : List Row) (q : String) (n : Nat) : List Row :=
  (List.insertionSort idxLe (tbl.filter (fun r => strContains r.chunk q))).take n

/-- The main query of the mode the classifier chose (line 395 executes
exactly one of the four `query_sql` strings). -/
def runMode (tbl : List Row) (n : Nat) : QMode → List Row
  | .specific bq => sqlSpecific tbl bq n
  | .billType bt => sqlBillType tbl bt
  | .sponsor name => sqlSponsor tbl name
  | .freeText q => sqlFreeText tbl q n

/-! ### Result formatting (lines 411-479). -/

/-- Line 429-433: `bill_name = row.source_file.replace('.pdf', '')`, with
`'Unknown Bill'` when the column is falsy.  Stored file names are
upper-cased at load time, so the lower-case `.pdf` replace usually leaves
them unchanged. -/
def billNameOf (r : Row) : String :=
  if r.source_file ≠ "" then pyReplace r.source_file ".pdf" "" else "Unknown Bill"

/-- The grouping loop of lines 412-462, producing the per-group
`(current_bill, bill_chunks)` pairs in emission order.  Rows with a falsy
chunk are skipped (line 424-427); a group is flushed when the bill name
changes and both the current name and chunk list are truthy (line 436);
the final flush needs the same truthiness (line 458). -/
def formatLoopGroups : List Row → Option String → List String →
    List (String × List String) → List (String × List String)
  | [], curr, chunks, acc =>
    match curr with
    | some cb => if cb ≠ "" ∧ chunks ≠ [] then acc ++ [(cb, chunks)] else acc
    | none => acc
  | r :: rest, curr, chunks, acc =>
    if r.chunk = "" then formatLoopGroups rest curr chunks acc
    else
      let bn := billNameOf r
      match curr with
      | some cb =>
        if cb ≠ "" ∧ cb ≠ bn ∧ chunks ≠ [] then
          formatLoopGroups rest (some bn) [r.chunk] (acc ++ [(cb, chunks)])
        else
          formatLoopGroups rest (some bn) (chunks ++ [r.chunk]) acc
      | none => formatLoopGroups rest (some bn) (chunks ++ [r.chunk]) acc

/-- The groups the formatting loop emits for a result list. -/
def groupRuns (results : List Row) : List (String × List String) :=
  formatLoopGroups results none [] []

/-- Lines 438-441 and 459-462: render one group as
`f"{header}\n\n{full_text}\n"` where `full_text` joins the group's chunks
with newlines and the header comes from the chunk-derived bill info. -/
def renderGroup (g : String × List String) : String :=
  let full_text := String.intercalate "\n" g.2
  format_bill_header g.1 (extract_bill_info_from_chunk full_text)
    ++ "\n\n" ++ full_text ++ "\n"

/-- The `context_parts` list before the summary is inserted. -/
def contextParts (results : List Row) : List String :=
  (groupRuns results).map renderGroup

/-- The mode-dependent summary inserted at position 0 (lines 467-477);
the free-text fallback inserts none. -/
def modeSummary (m : QMode) (billCount : Nat) : List String :=
  match m with
  | .specific _ => ["Here\x27s the bill you asked for:\n\n"]
  | .billType bt => ["Here\x27s the most recent " ++ bt ++ " bill:\n\n"]
  | .sponsor name =>
    ["Found " ++ natToStr billCount ++ " bill" ++
      (if billCount ≠ 1 then "s" else "") ++ " sponsored by " ++ name ++ ":\n\n"]
  | .freeText _ => []

/-! ### `query_cortex_search_service` itself (lines 218-487). -/

/-- The first returned component.  The normal return and the outer
exception handler return a string; the handler of the available-bills
precheck (line 248) returns `[], []`, whose first component is an empty
list, not a string. -/
inductive Ctx where
  | str (s : String)
  | emptyList
deriving DecidableEq, Repr

/-- The pair returned by `query_cortex_search_service`. -/
structure QueryReturn where
  ctx : Ctx
  rows : List Row
deriving DecidableEq, Repr

/-- The retrieval backend: the logical table plus one error-injection flag
per `session.sql(...).collect()` call site (`True` makes that call raise).
`failRowCount` is the row-count precheck (line 230), `failAvailable` the
available-bills precheck (line 241), `failCountFor` the debug-only
per-bill count (line 297), `failMain` the main query (line 395).  The
debug-only table-structure probe (line 406) sits on a path that returns
`("", [])` whether it raises or not, so it needs no flag, and the `try`
of lines 324-344 wraps only exception-free string formatting. -/
structure Backend where
  tbl : List Row
  failRowCount : Bool
  failAvailable : Bool
  failCountFor : Bool
  failMain : Bool
deriving Repr

/-- `query_cortex_search_service(query)` (lines 218-487) for a backend,
debug flag and `num_retrieved_chunks` value `n`.  Every raising call site
is covered by a handler: the available-bills handler returns `[], []`
(line 248) and the outer handler returns `"", []` (line 487); empty
results or empty context parts return `"", []` (lines 408, 465); otherwise
the mode summary is inserted before the parts and everything is joined
with `"\n---\n"` (line 479). -/
def query_cortex_search_service (b : Backend) (debug : Bool) (n : Nat)
    (query : String) : QueryReturn :=
  if b.failRowCount then ⟨.str "", []⟩
  else if b.failAvailable then ⟨.emptyList, []⟩
  else
    let m := classify query
    if (match m with | .specific _ => debug && b.failCountFor | _ => false) then
      ⟨.str "", []⟩
    else if b.failMain then ⟨.str "", []⟩
    else
      let results := runMode b.tbl n m
      if results.isEmpty then ⟨.str "", []⟩
      else
        let parts := contextParts results
        if parts.isEmpty then ⟨.str "", []⟩
        else
          ⟨.str (String.intercalate "\n---\n"
            (modeSummary m parts.length ++ parts)), results⟩

/-- The question handling of `main` (lines 962-978): the submitted
question has every `'` removed (line 977) before `create_prompt` hands it
to the retriever. -/
def handle_question (b : Backend) (debug : Bool) (n : Nat)
    (question : String) : QueryReturn :=
  query_cortex_search_service b debug n
    (pyReplace question (String.singleton (Char.ofNat 39)) "")

/-- Table well-formedness, from the data model of the ingestion pipeline:
chunks are nonempty text segments, `(source_file, chunk_index)` identifies
a row, every stored document has a chunk of index 0, and file names do not
reduce to an empty bill name. -/
def WFtable (tbl : List Row) : Prop :=
  (∀ r ∈ tbl, r.chunk ≠ "") ∧
  (∀ r1 ∈ tbl, ∀ r2 ∈ tbl, r1.source_file = r2.source_file →
    r1.chunk_index = r2.chunk_index → r1 = r2) ∧
  (∀ r ∈ tbl, ∃ r0 ∈ tbl, r0.source_file = r.source_file ∧ r0.chunk_index = 0) ∧
  (∀ r ∈ tbl, billNameOf r ≠ "")

instance (tbl : List Row) : Decidable (WFtable tbl) := by
  unfold WFtable
  infer_instance

/-! ### Helper lemmas. -/

theorem strMax_eq_none {l : List String} : strMax l = none ↔ l = [] := by
  constructor
  · intro h
    cases l with
    | nil => rfl
    | cons s t =>
      simp only [strMax] at h
      rcases hs : strMax t with _ | m <;> simp [hs] at h
      split at h <;> simp at h
  · intro h
    subst h
    rfl

theorem strMax_mem {l : List String} {m : String} (h : strMax l = some m) :
    m ∈ l := by
  induction l generalizing m with
  | nil => simp [strMax] at h
  | cons s t ih =>
    rcases hs : strMax t with _ | m'
    · simp only [strMax, hs] at h
      simp at h
      simp [h]
    · simp only [strMax, hs] at h
      cases hlt : charsLt s.data m'.data
      · rw [hlt] at h
        simp at h
        simp [h]
      · rw [hlt] at h
        simp at h
        subst h
        exact List.mem_cons_of_mem _ (ih hs)

/-- Nothing in the list is lexicographically greater than `strMax`. -/
theorem strMax_ge {l : List String} {m : String} (h : strMax l = some m) :
    ∀ s ∈ l, charsLt m.data s.data = false := by
  induction l generalizing m with
  | nil => simp
  | cons s t ih =>
    intro x hx
    rcases hs : strMax t with _ | m'
    · have ht : t = [] := strMax_eq_none.mp hs
      subst ht
      simp only [strMax, hs] at h
      simp at h hx
      subst h
      subst hx
      exact charsLt_irrefl _
    · simp only [strMax, hs] at h
      cases hlt : charsLt s.data m'.data
      · rw [hlt] at h
        simp at h
        subst h
        rcases List.mem_cons.mp hx with hx | hx
        · subst hx
          exact charsLt_irrefl _
        · have hmx := ih hs x hx
          cases hsx : charsLt s.data x.data
          · rfl
          · cases hxm : charsLt x.data m'.data
            · have hxe : x = m' := (stringDataEq (charsLt_eq_of_not_lt hmx hxm)).symm
              subst hxe
              exact absurd hsx (by simp [hlt])
            · exact absurd (charsLt_trans hsx hxm) (by simp [hlt])
      · rw [hlt] at h
        simp at h
        subst h
        rcases List.mem_cons.mp hx with hx | hx
        · subst hx
          exact charsLt_asymm hlt
        · exact ih hs x hx

theorem minIdxRow_eq_none {l : List Row} : minIdxRow l = none ↔ l = [] := by
  constructor
  · intro h
    cases l with
    | nil => rfl
    | cons r t =>
      simp only [minIdxRow] at h
      rcases hs : minIdxRow t with _ | a <;> simp [hs] at h
      split at h <;> simp at h
  · intro h
    subst h
    rfl

theorem minIdxRow_mem {l : List Row} {a : Row} (h : minIdxRow l = some a) :
    a ∈ l := by
  induction l generalizing a with
  | nil => simp [minIdxRow] at h
  | cons r t ih =>
    rcases hs : minIdxRow t with _ | a'
    · simp only [minIdxRow, hs] at h
      simp at h
      simp [h]
    · simp only [minIdxRow, hs] at h
      by_cases hlt : r.chunk_index < a'.chunk_index
      · rw [if_pos hlt] at h
        simp at h
        simp [h]
      · rw [if_neg hlt] at h
        simp at h
        subst h
        exact List.mem_cons_of_mem _ (ih hs)

theorem minIdxRow_le {l : List Row} {a : Row} (h : minIdxRow l = some a) :
    ∀ r ∈ l, a.chunk_index ≤ r.chunk_index := by
  induction l generalizing a with
  | nil => simp
  | cons r t ih =>
    intro x hx
    rcases hs : minIdxRow t with _ | a'
    · have ht : t = [] := minIdxRow_eq_none.mp hs
      subst ht
      simp only [minIdxRow, hs] at h
      simp at h hx
      subst h
      subst hx
      exact le_refl _
    · simp only [minIdxRow, hs] at h
      by_cases hlt : r.chunk_index < a'.chunk_index
      · rw [if_pos hlt] at h
        simp at h
        subst h
        rcases List.mem_cons.mp hx with hx | hx
        · subst hx
          exact le_refl _
        · exact (le_of_lt hlt).trans (ih hs x hx)
      · rw [if_neg hlt] at h
        simp at h
        subst h
        rcases List.mem_cons.mp hx with hx | hx
        · subst hx
          exact not_lt.mp hlt
        · exact ih hs x hx

/-- Under table well-formedness, the rank-1 chunk of a stored document is
exactly its `chunk_index = 0` row. -/
theorem firstChunkRow_eq_zero_row {tbl : List Row} (hwf : WFtable tbl)
    {r0 : Row} (hr0 : r0 ∈ tbl) (hidx : r0.chunk_index = 0) :
    firstChunkRow tbl r0.source_file = some r0 := by
  obtain ⟨-, huniq, -, -⟩ := hwf
  have hr0' : r0 ∈ rowsOf tbl r0.source_file := by
    simp [rowsOf, List.mem_filter, hr0]
  rcases ha : minIdxRow (rowsOf tbl r0.source_file) with _ | a
  · rw [minIdxRow_eq_none] at ha
    rw [ha] at hr0'
    simp at hr0'
  · have ham := minIdxRow_mem ha
    have hale := minIdxRow_le ha r0 hr0'
    have ha_tbl : a ∈ tbl := (List.mem_filter.mp ham).1
    have ha_sf : a.source_file = r0.source_file := by
      have := (List.mem_filter.mp ham).2
      simpa using this
    have ha_idx : a.chunk_index = r0.chunk_index := by
      omega
    have := huniq a ha_tbl r0 hr0 ha_sf ha_idx
    rw [firstChunkRow, ha, this]

/-- Reference grouping, written from the grouping rule as amended:
consecutive runs of equal names become single groups, in input order. -/
def runGroupsSpec : List (String × String) → List (String × List String)
  | [] => []
  | (d, c) :: rest =>
    match runGroupsSpec rest with
    | [] => [(d, [c])]
    | (d2, cs) :: gs =>
      if d = d2 then (d, c :: cs) :: gs else (d, [c]) :: (d2, cs) :: gs

/-- Merge a pending group into the front of a group list, coalescing equal
names. -/
def mergeHead (g : String × List String) :
    List (String × List String) → List (String × List String)
  | [] => [g]
  | (d2, cs) :: gs => if g.1 = d2 then (g.1, g.2 ++ cs) :: gs else g :: (d2, cs) :: gs

/-- The rows the formatting loop actually groups: falsy chunks skipped,
names resolved. -/
def cleanRows (results : List Row) : List (String × String) :=
  (results.filter (fun r => r.chunk ≠ "")).map (fun r => (billNameOf r, r.chunk))

theorem runGroupsSpec_cons (d : String) (c : String)
    (rest : List (String × String)) :
    runGroupsSpec ((d, c) :: rest) = mergeHead (d, [c]) (runGroupsSpec rest) := by
  rcases h : runGroupsSpec rest with _ | ⟨⟨d2, cs⟩, gs⟩
  · simp [runGroupsSpec, mergeHead, h]
  · simp only [runGroupsSpec, mergeHead, h]
    split <;> simp_all

theorem mergeHead_same (cb : String) (chunks : List String) (c : String)
    (G : List (String × List String)) :
    mergeHead (cb, chunks) (mergeHead (cb, [c]) G) =
      mergeHead (cb, chunks ++ [c]) G := by
  rcases G with _ | ⟨⟨d2, cs⟩, gs⟩
  · simp [mergeHead]
  · by_cases h : cb = d2
    · subst h
      simp [mergeHead]
    · simp [mergeHead, h]

theorem mergeHead_of_ne (g h : String × List String)
    (G : List (String × List String)) (hne : g.1 ≠ h.1) :
    mergeHead g (mergeHead h G) = g :: mergeHead h G := by
  obtain ⟨d, c⟩ := h
  simp only at hne
  rcases G with _ | ⟨⟨d2, cs⟩, gs⟩
  · simp [mergeHead, hne]
  · by_cases h2 : d = d2
    · subst h2
      simp [mergeHead, hne]
    · simp [mergeHead, h2, hne]

theorem cleanRows_cons_of_skip {r : Row} (h : r.chunk = "")
    (rest : List Row) : cleanRows (r :: rest) = cleanRows rest := by
  simp [cleanRows, List.filter_cons, h]

theorem cleanRows_cons_of_keep {r : Row} (h : r.chunk ≠ "")
    (rest : List Row) :
    cleanRows (r :: rest) = (billNameOf r, r.chunk) :: cleanRows rest := by
  simp [cleanRows, List.filter_cons, h]

theorem formatLoop_acc (rest : List Row) :
    ∀ (cb : String) (chunks : List String)
      (acc : List (String × List String)),
      cb ≠ "" → chunks ≠ [] →
      (∀ r ∈ rest, r.chunk ≠ "" → billNameOf r ≠ "") →
      formatLoopGroups rest (some cb) chunks acc =
        acc ++ mergeHead (cb, chunks) (runGroupsSpec (cleanRows rest)) := by
  induction rest with
  | nil =>
    intro cb chunks acc hcb hch _
    simp [formatLoopGroups, cleanRows, runGroupsSpec, mergeHead, hcb, hch]
  | cons r rest ih =>
    intro cb chunks acc hcb hch hnames
    by_cases hc : r.chunk = ""
    · rw [cleanRows_cons_of_skip hc]
      simp only [formatLoopGroups, hc, if_pos rfl]
      exact ih cb chunks acc hcb hch (fun x hx => hnames x (List.mem_cons_of_mem _ hx))
    · have hbn : billNameOf r ≠ "" := hnames r (List.mem_cons_self _ _) hc
      rw [cleanRows_cons_of_keep hc, runGroupsSpec_cons]
      by_cases hbc : billNameOf r = cb
      · have hcond : ¬(cb ≠ "" ∧ cb ≠ billNameOf r ∧ chunks ≠ []) := by
          intro ⟨_, hne, _⟩
          exact hne hbc.symm
        simp only [formatLoopGroups, if_neg hc]
        rw [if_neg hcond]
        rw [ih (billNameOf r) (chunks ++ [r.chunk]) acc hbn (by simp)
          (fun x hx => hnames x (List.mem_cons_of_mem _ hx))]
        rw [hbc, mergeHead_same]
      · have hcond : cb ≠ "" ∧ cb ≠ billNameOf r ∧ chunks ≠ [] :=
          ⟨hcb, fun he => hbc he.symm, hch⟩
        simp only [formatLoopGroups, if_neg hc]
        rw [if_pos hcond]
        rw [ih (billNameOf r) [r.chunk] (acc ++ [(cb, chunks)]) hbn (by simp)
          (fun x hx => hnames x (List.mem_cons_of_mem _ hx))]
        rw [mergeHead_of_ne (cb, chunks) (billNameOf r, [r.chunk]) _
          (fun he => hbc he.symm)]
        simp

theorem groupRuns_eq_spec (results : List Row)
    (h : ∀ r ∈ results, r.chunk ≠ "" → billNameOf r ≠ "") :
    groupRuns results = runGroupsSpec (cleanRows results) := by
  induction results with
  | nil => rfl
  | cons r rest ih =>
    by_cases hc : r.chunk = ""
    · rw [cleanRows_cons_of_skip hc]
      simp only [groupRuns, formatLoopGroups, hc, if_pos rfl]
      exact ih (fun x hx => h x (List.mem_cons_of_mem _ hx))
    · have hbn : billNameOf r ≠ "" := h r (List.mem_cons_self _ _) hc
      rw [cleanRows_cons_of_keep hc, runGroupsSpec_cons]
      simp only [groupRuns, formatLoopGroups, if_neg hc, List.nil_append]
      rw [formatLoop_acc rest (billNameOf r) [r.chunk] [] hbn (by simp)
        (fun x hx => h x (List.mem_cons_of_mem _ hx))]
      simp

theorem runGroupsSpec_chunks_ne_nil {L : List (String × String)} :
    ∀ g ∈ runGroupsSpec L, g.2 ≠ [] := by
  induction L with
  | nil => simp [runGroupsSpec]
  | cons p rest ih =>
    obtain ⟨d, c⟩ := p
    intro g hg
    rcases hr : runGroupsSpec rest with _ | ⟨⟨d2, cs⟩, gs⟩
    · simp only [runGroupsSpec, hr] at hg
      simp at hg
      simp [hg]
    · simp only [runGroupsSpec, hr] at hg
      by_cases hd : d = d2
      · rw [if_pos hd] at hg
        rcases List.mem_cons.mp hg with hg | hg
        · simp [hg]
        · exact ih g (by rw [hr]; exact List.mem_cons_of_mem _ hg)
      · rw [if_neg hd] at hg
        rcases List.mem_cons.mp hg with hg | hg
        · simp [hg]
        · exact ih g (by rw [hr]; exact hg)

theorem runGroupsSpec_ne_nil {L : List (String × String)} (h : L ≠ []) :
    runGroupsSpec L ≠ [] := by
  cases L with
  | nil => exact absurd rfl h
  | cons p rest =>
    obtain ⟨d, c⟩ := p
    rcases hr : runGroupsSpec rest with _ | ⟨⟨d2, cs⟩, gs⟩
    · simp [runGroupsSpec, hr]
    · simp only [runGroupsSpec, hr]
      by_cases hd : d = d2
      · rw [if_pos hd]
        simp
      · rw [if_neg hd]
        simp

theorem groupRuns_ne_nil {results : List Row}
    (h1 : ∀ r ∈ results, r.chunk ≠ "")
    (h2 : ∀ r ∈ results, billNameOf r ≠ "")
    (hne : results ≠ []) : groupRuns results ≠ [] := by
  rw [groupRuns_eq_spec results (fun r hr _ => h2 r hr)]
  apply runGroupsSpec_ne_nil
  have hf : results.filter (fun r => r.chunk ≠ "") = results :=
    List.filter_eq_self.mpr (by simpa using h1)
  simp only [cleanRows, hf]
  intro habs
  rw [List.map_eq_nil_iff] at habs
  exact hne habs

theorem runMode_subset {tbl : List Row} {n : Nat} {m : QMode} {r : Row}
    (h : r ∈ runMode tbl n m) : r ∈ tbl := by
  cases m with
  | specific bq =>
    simp only [runMode, sqlSpecific] at h
    have h1 := List.mem_of_mem_take h
    have h2 := (List.perm_insertionSort idxLe _).mem_iff.mp h1
    exact (List.mem_filter.mp h2).1
  | billType bt =>
    simp only [runMode, sqlBillType] at h
    split at h
    · simp at h
    · have h2 := (List.perm_insertionSort idxLe _).mem_iff.mp h
      exact (List.mem_filter.mp h2).1
  | sponsor name =>
    simp only [runMode, sqlSponsor] at h
    have h2 := (List.perm_insertionSort fileIdxLe _).mem_iff.mp h
    exact (List.mem_filter.mp (List.mem_dedup.mp h2)).1
  | freeText q =>
    simp only [runMode, sqlFreeText] at h
    have h1 := List.mem_of_mem_take h
    have h2 := (List.perm_insertionSort idxLe _).mem_iff.mp h1
    exact (List.mem_filter.mp h2).1

/-- With no injected backend failure and a well-formed table, the rows the
retriever returns are exactly the rows of the mode's query (the
formatting stage neither drops nor reorders them). -/
theorem rows_eq_runMode (b : Backend) (debug : Bool) (n : Nat) (q : String)
    (h1 : b.failRowCount = false) (h2 : b.failAvailable = false)
    (h3 : b.failCountFor = false) (h4 : b.failMain = false)
    (hwf1 : ∀ r ∈ b.tbl, r.chunk ≠ "")
    (hwf4 : ∀ r ∈ b.tbl, billNameOf r ≠ "") :
    (query_cortex_search_service b debug n q).rows =
      runMode b.tbl n (classify q) := by
  have hmatch : (match classify q with
      | .specific _ => debug && b.failCountFor
      | _ => false) = false := by
    cases classify q <;> simp [h3]
  by_cases hres : (runMode b.tbl n (classify q)).isEmpty
  · simp only [query_cortex_search_service, h1, h2, h4, hmatch]
    simp only [Bool.false_eq_true, if_false, hres, if_true]
    rw [List.isEmpty_iff] at hres
    simp [hres]
  · have hresne : runMode b.tbl n (classify q) ≠ [] := by
      intro habs
      rw [habs] at hres
      simp at hres
    have hparts : contextParts (runMode b.tbl n (classify q)) ≠ [] := by
      unfold contextParts
      intro habs
      rw [List.map_eq_nil_iff] at habs
      exact groupRuns_ne_nil
        (fun r hr => hwf1 r (runMode_subset hr))
        (fun r hr => hwf4 r (runMode_subset hr)) hresne habs
    have hpartsb : ¬(contextParts (runMode b.tbl n (classify q))).isEmpty = true := by
      simp only [List.isEmpty_iff]
      exact hparts
    simp only [query_cortex_search_service, h1, h2, h4, hmatch]
    simp only [Bool.false_eq_true, if_false]
    rw [if_neg hres, if_neg hpartsb]

/-! ### The claims. -/

/-- Claim C6: classification is evaluated in strict priority order -
specific-bill lookup, then bill-type browse, then sponsor browse, then
free-text fallback - and exactly the first matching rule determines the
retrieval query; in particular a question matching both a specific bill
id and a browse or sponsor pattern is handled by specific-bill lookup
alone, and a sponsor capture that strips to the empty string falls
through to free text. -/
theorem C6_classifier_priority (q : String) :
    (∀ bq, extractBillQuery q = some bq → classify q = .specific bq) ∧
    (extractBillQuery q = none → ∀ bt, billTypeMatch q = some bt →
      classify q = .billType bt) ∧
    (extractBillQuery q = none → billTypeMatch q = none →
      ∀ sp, sponsorNameMatch q = some sp → sp ≠ "" → classify q = .sponsor sp) ∧
    (extractBillQuery q = none → billTypeMatch q = none →
      (sponsorNameMatch q = none ∨ sponsorNameMatch q = some "") →
      classify q = .freeText q) := by
  refine ⟨?_, ?_, ?_, ?_⟩
  · intro bq h
    simp [classify, h]
  · intro h0 bt h
    simp [classify, h0, h]
  · intro h0 h1 sp h hne
    simp [classify, h0, h1, h, hne]
  · intro h0 h1 h2
    rcases h2 with h2 | h2 <;> simp [classify, h0, h1, h2]

/-- Witness for C6 at a question that matches a specific bill id, a
bill-type browse pattern and a sponsor pattern at once: the classifier
picks specific-bill lookup alone. -/
theorem C6_classifier_priority_witness :
    extractBillQuery "tell hb 9 senator Al" = some "HB9" ∧
    billTypeMatch "tell hb 9 senator Al" = some "HB" ∧
    sponsorNameMatch "tell hb 9 senator Al" = some "Al" ∧
    classify "tell hb 9 senator Al" = .specific "HB9" :=
  ⟨by decide, by decide, by decide,
    (C6_classifier_priority "tell hb 9 senator Al").1 "HB9" (by decide)⟩

/-- Claim C7, counterexample: when the available-bills precheck raises,
the handler at line 248 returns `[], []` - the result set is empty, but
the summary position holds an empty list, not the empty summary string
the claim requires. -/
theorem C7_counterexample :
    query_cortex_search_service ⟨[], false, true, false, false⟩ false 5 "x" =
      ⟨Ctx.emptyList, []⟩ ∧
    ∀ s : String, Ctx.emptyList ≠ Ctx.str s := by
  refine ⟨by decide, ?_⟩
  intro s h
  cases h

/-- Claim C7 as amended: every injected backend error is caught inside
`query_cortex_search_service` (the function is total, no exception
propagates) and yields an empty result set; the first component is the
empty string on every error path except the available-bills precheck,
which yields an empty list instead. -/
theorem C7_amended (b : Backend) (debug : Bool) (n : Nat) (q : String)
    (h : b.failRowCount = true ∨ b.failAvailable = true ∨ b.failMain = true ∨
      (debug = true ∧ b.failCountFor = true ∧ ∃ bq, classify q = .specific bq)) :
    (query_cortex_search_service b debug n q).rows = [] ∧
    ((query_cortex_search_service b debug n q).ctx = .str "" ∨
      (query_cortex_search_service b debug n q).ctx = .emptyList) := by
  unfold query_cortex_search_service
  by_cases h1 : b.failRowCount
  · simp [h1]
  · by_cases h2 : b.failAvailable
    · simp [h1, h2]
    · simp only [h1, h2, Bool.false_eq_true, if_false]
      have h34 : b.failMain = true ∨
          (debug = true ∧ b.failCountFor = true ∧ ∃ bq, classify q = .specific bq) := by
        rcases h with h | h | h | h
        · exact absurd h (by simp [h1])
        · exact absurd h (by simp [h2])
        · exact Or.inl h
        · exact Or.inr h
      rcases hm : classify q with bq | bt | sp | qq
      · rcases h34 with h4 | ⟨hd, hcf, -⟩
        · cases hdc : (debug && b.failCountFor) <;> simp [hm, hdc, h4]
        · simp [hm, hd, hcf]
      all_goals
        have h4 : b.failMain = true := by
          rcases h34 with h4 | ⟨-, -, bq, habs⟩
          · exact h4
          · rw [hm] at habs
            cases habs
      all_goals simp [hm, h4]

/-- Witness for C7 as amended, at a backend whose main query raises. -/
theorem C7_amended_witness :
    (query_cortex_search_service ⟨[⟨"a", "SB8.PDF", 0⟩], false, false, false, true⟩
      false 5 "SB8").rows = [] ∧
    ((query_cortex_search_service ⟨[⟨"a", "SB8.PDF", 0⟩], false, false, false, true⟩
      false 5 "SB8").ctx = .str "" ∨
     (query_cortex_search_service ⟨[⟨"a", "SB8.PDF", 0⟩], false, false, false, true⟩
      false 5 "SB8").ctx = .emptyList) :=
  C7_amended ⟨[⟨"a", "SB8.PDF", 0⟩], false, false, false, true⟩ false 5 "SB8"
    (Or.inr (Or.inr (Or.inl rfl)))

/-- Claim C1, counterexample: the question `"SB8"` routes to specific-bill
lookup with canonical id `SB8`; both stored chunks of `SB8` match the
case-insensitive document-id test, yet with `num_retrieved_chunks = 1`
the retriever returns a single row - the query carries
`LIMIT num_retrieved_chunks` (line 286), so the result is truncated to N,
contradicting the claimed unlimited count. -/
theorem C1_counterexample :
    classify "SB8" = .specific "SB8" ∧
    ([⟨"a", "SB8.PDF", 0⟩, ⟨"b", "SB8.PDF", 1⟩] : List Row).filter
      (specMatches "SB8") = [⟨"a", "SB8.PDF", 0⟩, ⟨"b", "SB8.PDF", 1⟩] ∧
    (query_cortex_search_service
      ⟨[⟨"a", "SB8.PDF", 0⟩, ⟨"b", "SB8.PDF", 1⟩], false, false, false, false⟩
      false 1 "SB8").rows = [⟨"a", "SB8.PDF", 0⟩] := by
  refine ⟨by decide, by decide, by decide⟩

/-- Claim C1 as amended: for every question routed to specific-bill
lookup, the retriever returns the chunks whose stored file name
case-insensitively equals `<canonical id>.pdf`, ordered by `chunk_index`
ascending, but truncated to at most N rows by
`LIMIT num_retrieved_chunks`. -/
theorem C1_amended (b : Backend) (debug : Bool) (n : Nat) (q bq : String)
    (hok : b.failRowCount = false ∧ b.failAvailable = false ∧
      b.failCountFor = false ∧ b.failMain = false)
    (hwf : WFtable b.tbl)
    (hcls : classify q = .specific bq) :
    (query_cortex_search_service b debug n q).rows =
      (List.insertionSort idxLe (b.tbl.filter (specMatches bq))).take n ∧
    (∀ r ∈ (query_cortex_search_service b debug n q).rows,
      specMatches bq r = true) ∧
    List.Sorted idxLe (query_cortex_search_service b debug n q).rows ∧
    (query_cortex_search_service b debug n q).rows.length ≤ n := by
  obtain ⟨h1, h2, h3, h4⟩ := hok
  obtain ⟨hwf1, -, -, hwf4⟩ := hwf
  have hrows := rows_eq_runMode b debug n q h1 h2 h3 h4 hwf1 hwf4
  rw [hcls] at hrows
  simp only [runMode, sqlSpecific] at hrows
  refine ⟨hrows, ?_, ?_, ?_⟩
  · intro r hr
    rw [hrows] at hr
    have hm1 := List.mem_of_mem_take hr
    have hm2 := (List.perm_insertionSort idxLe _).mem_iff.mp hm1
    exact List.of_mem_filter hm2
  · rw [hrows]
    exact (List.sorted_insertionSort idxLe _).sublist (List.take_sublist n _)
  · rw [hrows]
    exact List.length_take_le n _

/-- Witness for C1 as amended, at a two-chunk bill and N = 1. -/
theorem C1_amended_witness :
    WFtable [⟨"a", "SB8.PDF", 0⟩, ⟨"b", "SB8.PDF", 1⟩] ∧
    (query_cortex_search_service
      ⟨[⟨"a", "SB8.PDF", 0⟩, ⟨"b", "SB8.PDF", 1⟩], false, false, false, false⟩
      false 1 "SB8").rows.length ≤ 1 :=
  ⟨by decide,
    (C1_amended ⟨[⟨"a", "SB8.PDF", 0⟩, ⟨"b", "SB8.PDF", 1⟩], false, false, false, false⟩
      false 1 "SB8" "SB8" ⟨rfl, rfl, rfl, rfl⟩ (by decide) (by decide)).2.2.2⟩

/-- Claim C2: for every question routed to bill-type browse, the
retriever returns all chunks of exactly one document of that type - the
one with the lexicographically greatest stored file name among those
matching `LIKE '<type>%'` - ordered by `chunk_index`, and never a mix of
chunks from several documents. -/
theorem C2_bill_type_browse (b : Backend) (debug : Bool) (n : Nat)
    (q t m : String)
    (hok : b.failRowCount = false ∧ b.failAvailable = false ∧
      b.failCountFor = false ∧ b.failMain = false)
    (hwf : WFtable b.tbl)
    (hcls : classify q = .billType t)
    (hmax : strMax ((b.tbl.filter
      (fun r => charsPrefix t.data r.source_file.data)).map
      (fun r => r.source_file)) = some m) :
    (query_cortex_search_service b debug n q).rows =
      List.insertionSort idxLe (rowsOf b.tbl m) ∧
    (∀ r ∈ (query_cortex_search_service b debug n q).rows,
      r.source_file = m) ∧
    (query_cortex_search_service b debug n q).rows ≠ [] ∧
    List.Sorted idxLe (query_cortex_search_service b debug n q).rows ∧
    (query_cortex_search_service b debug n q).rows.Perm (rowsOf b.tbl m) ∧
    charsPrefix t.data m.data = true ∧
    (∀ r ∈ b.tbl, charsPrefix t.data r.source_file.data = true →
      charsLt m.data r.source_file.data = false) := by
  obtain ⟨h1, h2, h3, h4⟩ := hok
  obtain ⟨hwf1, -, -, hwf4⟩ := hwf
  have hrows := rows_eq_runMode b debug n q h1 h2 h3 h4 hwf1 hwf4
  rw [hcls] at hrows
  simp only [runMode, sqlBillType, hmax] at hrows
  obtain ⟨r0, hr0f, hr0sf⟩ := List.mem_map.mp (strMax_mem hmax)
  have hr0tbl : r0 ∈ b.tbl := (List.mem_filter.mp hr0f).1
  have hr0pre : charsPrefix t.data r0.source_file.data = true := by
    simpa using (List.mem_filter.mp hr0f).2
  have hr0rows : r0 ∈ rowsOf b.tbl m := by
    simp [rowsOf, List.mem_filter, hr0tbl, hr0sf]
  refine ⟨hrows, ?_, ?_, ?_, ?_, ?_, ?_⟩
  · intro r hr
    rw [hrows] at hr
    have hm2 := (List.perm_insertionSort idxLe _).mem_iff.mp hr
    have := List.of_mem_filter hm2
    simpa using this
  · rw [hrows]
    apply List.ne_nil_of_mem
    exact (List.perm_insertionSort idxLe _).mem_iff.mpr hr0rows
  · rw [hrows]
    exact List.sorted_insertionSort idxLe _
  · rw [hrows]
    exact List.perm_insertionSort idxLe _
  · rw [← hr0sf]
    exact hr0pre
  · intro r hr hpre
    exact strMax_ge hmax r.source_file
      (List.mem_map.mpr ⟨r, List.mem_filter.mpr ⟨hr, hpre⟩, rfl⟩)

/-- Witness for C2: among `HB1`, `HB45`, `HB9` the browse returns exactly
the chunks of `HB9.PDF`, the lexicographically greatest file name. -/
theorem C2_bill_type_browse_witness :
    WFtable [⟨"x", "HB1.PDF", 0⟩, ⟨"z", "HB45.PDF", 0⟩, ⟨"y", "HB9.PDF", 0⟩] ∧
    classify "show hb" = .billType "HB" ∧
    (query_cortex_search_service
      ⟨[⟨"x", "HB1.PDF", 0⟩, ⟨"z", "HB45.PDF", 0⟩, ⟨"y", "HB9.PDF", 0⟩],
        false, false, false, false⟩ false 5 "show hb").rows =
      [⟨"y", "HB9.PDF", 0⟩] :=
  ⟨by decide, by decide,
    ((C2_bill_type_browse
      ⟨[⟨"x", "HB1.PDF", 0⟩, ⟨"z", "HB45.PDF", 0⟩, ⟨"y", "HB9.PDF", 0⟩],
        false, false, false, false⟩ false 5 "show hb" "HB" "HB9.PDF"
      ⟨rfl, rfl, rfl, rfl⟩ (by decide) (by decide) (by decide)).1).trans
      (by decide)⟩

/-- Claim C3, counterexample: the question routes to sponsor browse with
captured name `payton`; the sole document's first chunk contains `By:`
and contains `payton` as a case-insensitive substring (`Payton`), so the
claim requires its chunks to be returned - but the `LIKE '%payton%'`
test is case-sensitive under the default collation and the retriever
returns nothing. -/
theorem C3_counterexample :
    classify "what bills by payton?" = .sponsor "payton" ∧
    strContains "By: Senator Payton\nmore" "By:" = true ∧
    charsInfix "payton".data
      ("By: Senator Payton\nmore".data.map Char.toLower) = true ∧
    (query_cortex_search_service
      ⟨[⟨"By: Senator Payton\nmore", "SB1.PDF", 0⟩, ⟨"rest", "SB1.PDF", 1⟩,
        ⟨"nothing here", "HB2.PDF", 0⟩], false, false, false, false⟩
      false 5 "what bills by payton?").rows = [] := by
  refine ⟨by decide, by decide, by decide, by decide⟩

/-- Claim C3 as amended: for every question routed to sponsor browse with
captured name S, a document is selected iff its `chunk_index = 0` chunk
contains `By:` and contains S as a case-sensitive substring; all chunks
of the selected documents (and only those) are returned, ordered by file
name then `chunk_index` (so each document's chunks are contiguous), and
the documents appearing in the result are exactly the selected ones. -/
theorem C3_amended (b : Backend) (debug : Bool) (n : Nat) (q S : String)
    (hok : b.failRowCount = false ∧ b.failAvailable = false ∧
      b.failCountFor = false ∧ b.failMain = false)
    (hwf : WFtable b.tbl)
    (hcls : classify q = .sponsor S) :
    (∀ r : Row, r ∈ (query_cortex_search_service b debug n q).rows ↔
      (r ∈ b.tbl ∧ sponsorSelected b.tbl S r.source_file = true)) ∧
    (∀ r0 ∈ b.tbl, r0.chunk_index = 0 →
      sponsorSelected b.tbl S r0.source_file =
        (strContains r0.chunk "By:" && strContains r0.chunk S)) ∧
    List.Sorted fileIdxLe (query_cortex_search_service b debug n q).rows ∧
    (∀ i j k : Fin (query_cortex_search_service b debug n q).rows.length,
      i < j → j < k →
      ((query_cortex_search_service b debug n q).rows.get i).source_file =
        ((query_cortex_search_service b debug n q).rows.get k).source_file →
      ((query_cortex_search_service b debug n q).rows.get j).source_file =
        ((query_cortex_search_service b debug n q).rows.get i).source_file) ∧
    ((query_cortex_search_service b debug n q).rows.map
        (fun r => r.source_file)).dedup.length =
      ((b.tbl.filter (fun r => sponsorSelected b.tbl S r.source_file)).map
        (fun r => r.source_file)).dedup.length := by
  obtain ⟨h1, h2, h3, h4⟩ := hok
  have hwf1 := hwf.1
  have hwf4 := hwf.2.2.2
  have hrows := rows_eq_runMode b debug n q h1 h2 h3 h4 hwf1 hwf4
  rw [hcls] at hrows
  simp only [runMode, sqlSponsor] at hrows
  have hperm : (query_cortex_search_service b debug n q).rows.Perm
      ((b.tbl.filter (fun r => sponsorSelected b.tbl S r.source_file)).dedup) := by
    rw [hrows]
    exact List.perm_insertionSort fileIdxLe _
  refine ⟨?_, ?_, ?_, ?_, ?_⟩
  · intro r
    rw [hperm.mem_iff, List.mem_dedup, List.mem_filter]
  · intro r0 hr0 hidx
    unfold sponsorSelected
    rw [firstChunkRow_eq_zero_row hwf hr0 hidx]
  · rw [hrows]
    exact List.sorted_insertionSort fileIdxLe _
  · intro i j k hij hjk hik
    have hsorted : List.Sorted fileIdxLe
        (query_cortex_search_service b debug n q).rows := by
      rw [hrows]
      exact List.sorted_insertionSort fileIdxLe _
    have hrel := List.pairwise_iff_get.mp hsorted
    have hij' := hrel i j hij
    have hjk' := hrel j k hjk
    set ri := (query_cortex_search_service b debug n q).rows.get i
    set rj := (query_cortex_search_service b debug n q).rows.get j
    set rk := (query_cortex_search_service b debug n q).rows.get k
    rcases hij' with hlt1 | ⟨heq1, -⟩
    · rcases hjk' with hlt2 | ⟨heq2, -⟩
      · exact absurd (charsLt_trans hlt1 hlt2)
          (by rw [hik]; simp [charsLt_irrefl])
      · rw [heq2, ← hik] at hlt1
        exact absurd hlt1 (by simp [charsLt_irrefl])
    · exact heq1.symm
  · have hmapperm :
        ((query_cortex_search_service b debug n q).rows.map
          (fun r => r.source_file)).Perm
        (((b.tbl.filter (fun r => sponsorSelected b.tbl S r.source_file)).dedup).map
          (fun r => r.source_file)) := hperm.map _
    have hdperm := hmapperm.dedup
    rw [hdperm.length_eq]
    have hsetperm :
        ((((b.tbl.filter (fun r => sponsorSelected b.tbl S r.source_file)).dedup).map
          (fun r => r.source_file)).dedup).Perm
        (((b.tbl.filter (fun r => sponsorSelected b.tbl S r.source_file)).map
          (fun r => r.source_file)).dedup) := by
      apply (List.perm_ext_iff_of_nodup (List.nodup_dedup _) (List.nodup_dedup _)).mpr
      intro a
      simp only [List.mem_dedup, List.mem_map]
    exact hsetperm.length_eq

/-- Witness for C3 as amended: a capitalised name selects the matching
document and both of its chunks are returned. -/
theorem C3_amended_witness :
    WFtable [⟨"By: Senator Payton\nmore", "SB1.PDF", 0⟩, ⟨"rest", "SB1.PDF", 1⟩,
      ⟨"nothing here", "HB2.PDF", 0⟩] ∧
    classify "what bills by Payton?" = .sponsor "Payton" ∧
    ∀ r : Row, r ∈ (query_cortex_search_service
      ⟨[⟨"By: Senator Payton\nmore", "SB1.PDF", 0⟩, ⟨"rest", "SB1.PDF", 1⟩,
        ⟨"nothing here", "HB2.PDF", 0⟩], false, false, false, false⟩
      false 5 "what bills by Payton?").rows ↔
      (r ∈ [⟨"By: Senator Payton\nmore", "SB1.PDF", 0⟩, ⟨"rest", "SB1.PDF", 1⟩,
        ⟨"nothing here", "HB2.PDF", 0⟩] ∧
       sponsorSelected [⟨"By: Senator Payton\nmore", "SB1.PDF", 0⟩,
        ⟨"rest", "SB1.PDF", 1⟩, ⟨"nothing here", "HB2.PDF", 0⟩] "Payton"
        r.source_file = true) :=
  ⟨by decide, by decide,
    (C3_amended
      ⟨[⟨"By: Senator Payton\nmore", "SB1.PDF", 0⟩, ⟨"rest", "SB1.PDF", 1⟩,
        ⟨"nothing here", "HB2.PDF", 0⟩], false, false, false, false⟩
      false 5 "what bills by Payton?" "Payton"
      ⟨rfl, rfl, rfl, rfl⟩ (by decide) (by decide)).1⟩

/-- Claim C4, counterexample: for a chunk with no sponsor pattern match,
the extractor keeps its `'Unknown Sponsor'` default and the formatter
renders that placeholder in the metadata line - contradicting the claim
that no placeholder token is ever rendered and that every absent
optional field's line is omitted. -/
theorem C4_counterexample :
    reSearch chunkSponsorPat "hello".data = none ∧
    (extract_bill_info_from_chunk "hello").sponsor = "Unknown Sponsor" ∧
    strContains (format_bill_header "HB1" (extract_bill_info_from_chunk "hello"))
      "Unknown Sponsor" = true := by
  refine ⟨by decide, by decide, by decide⟩

/-- If a needle already fails to be a prefix within the concrete region
`pre` (not merely because `pre` is too short), appending any tail cannot
make it a prefix. -/
theorem charsPrefix_append_false : ∀ {needle pre : List Char},
    charsPrefix (needle.take pre.length) pre = false →
    ∀ tail, charsPrefix needle (pre ++ tail) = false := by
  intro needle
  induction needle with
  | nil =>
    intro pre h tail
    simp [charsPrefix] at h
  | cons a ns ih =>
    intro pre h tail
    cases pre with
    | nil => simp [charsPrefix] at h
    | cons c ps =>
      simp only [List.length_cons, List.take_succ_cons, charsPrefix] at h
      simp only [List.cons_append, charsPrefix]
      by_cases hac : a = c
      · rw [hac] at h ⊢
        simp only [decide_True, Bool.true_and] at h ⊢
        exact ih h tail
      · simp [hac]

/-- Every element of `header_parts` is the reference line, a summary
line, a subtitle line, or the joined metadata line. -/
theorem headerParts_mem {bill_name : String} {info : BillInfo} {p : String}
    (hp : p ∈ headerParts bill_name info) :
    p = "## " ++ format_bill_reference bill_name ∨
    (∃ s, info.summary = some s ∧ p = "**Summary**: " ++ s) ∨
    (∃ st, info.subtitle = some st ∧ p = "**Subtitle**: " ++ st) ∨
    (metaParts info ≠ [] ∧ p = String.intercalate " | " (metaParts info)) := by
  unfold headerParts at hp
  rcases List.mem_append.mp hp with hp1 | hp4
  · rcases List.mem_append.mp hp1 with hp2 | hp3
    · rcases List.mem_append.mp hp2 with hp5 | hp6
      · left
        simpa using hp5
      · right
        left
        rcases hsm : info.summary with - | s
        · simp only [hsm] at hp6
          simp at hp6
        · simp only [hsm] at hp6
          split at hp6
          · exact ⟨s, rfl, by simpa using hp6⟩
          · simp at hp6
    · right
      right
      left
      rcases hst : info.subtitle with - | st
      · simp only [hst] at hp3
        simp at hp3
      · simp only [hst] at hp3
        split at hp3
        · exact ⟨st, rfl, by simpa using hp3⟩
        · simp at hp3
  · right
    right
    right
    by_cases hie : (metaParts info).isEmpty
    · rw [if_pos hie] at hp4
      simp at hp4
    · rw [if_neg hie] at hp4
      refine ⟨fun habs => hie (by simp [habs]), by simpa using hp4⟩

/-- The joined metadata line begins with the sponsor label or the filed
label. -/
theorem metaLine_shape {info : BillInfo} (h : metaParts info ≠ []) :
    (∃ rest, (String.intercalate " | " (metaParts info)).data =
      "**Sponsor**: ".data ++ rest) ∨
    (∃ rest, (String.intercalate " | " (metaParts info)).data =
      "**Filed**: ".data ++ rest) := by
  by_cases hsp : info.sponsor = ""
  · rcases hdf : info.date_filed with - | d
    · exact absurd (by unfold metaParts; rw [hdf]; simp [hsp]) h
    · by_cases hd : d = ""
      · exact absurd (by unfold metaParts; rw [hdf]; simp [hsp, hd]) h
      · right
        have hm : metaParts info = ["**Filed**: " ++ d] := by
          unfold metaParts
          rw [hdf]
          simp [hsp, hd]
        rw [hm]
        exact ⟨d.data, rfl⟩
  · rcases hdf : info.date_filed with - | d
    · left
      have hm : metaParts info = ["**Sponsor**: " ++ info.sponsor] := by
        unfold metaParts
        rw [hdf]
        simp [hsp]
      rw [hm]
      exact ⟨info.sponsor.data, rfl⟩
    · by_cases hd : d = ""
      · left
        have hm : metaParts info = ["**Sponsor**: " ++ info.sponsor] := by
          unfold metaParts
          rw [hdf]
          simp [hsp, hd]
        rw [hm]
        exact ⟨info.sponsor.data, rfl⟩
      · left
        have hm : metaParts info =
            ["**Sponsor**: " ++ info.sponsor, "**Filed**: " ++ d] := by
          unfold metaParts
          rw [hdf]
          simp [hsp, hd]
        rw [hm]
        refine ⟨info.sponsor.data ++ (" | ".data ++ ("**Filed**: " ++ d).data), ?_⟩
        show ((("**Sponsor**: " ++ info.sponsor) ++ " | ") ++
          ("**Filed**: " ++ d)).data = _
        simp [List.append_assoc]

/-- Claim C4 as amended: the formatter omits the summary line when no
summary was extracted, the subtitle line when no subtitle was extracted,
and the sponsor and filing-date lines when those fields are falsy, and
it never fails on missing fields (it is a total function); but the
sponsor field defaults to the placeholder `'Unknown Sponsor'` when no
sponsor pattern matches, and that placeholder is then rendered. -/
theorem C4_amended (bill_name : String) (info : BillInfo) (chunk : String) :
    (info.summary = none → ∀ p ∈ headerParts bill_name info,
      charsPrefix "**Summary**".data p.data = false) ∧
    (info.subtitle = none → ∀ p ∈ headerParts bill_name info,
      charsPrefix "**Subtitle**".data p.data = false) ∧
    (info.date_filed = none → metaParts info =
      (if info.sponsor ≠ "" then ["**Sponsor**: " ++ info.sponsor] else [])) ∧
    (info.sponsor = "" → info.date_filed = none →
      ∀ p ∈ headerParts bill_name info,
        charsPrefix "**Sponsor**".data p.data = false ∧
        charsPrefix "**Filed**".data p.data = false) ∧
    (reSearch chunkSponsorPat chunk.data = none →
      (extract_bill_info_from_chunk chunk).sponsor = "Unknown Sponsor") := by
  refine ⟨?_, ?_, ?_, ?_, ?_⟩
  · intro hsum p hp
    rcases headerParts_mem hp with hp | ⟨s, hs, hp⟩ | ⟨st, hst, hp⟩ | ⟨hm, hp⟩
    · subst hp
      exact charsPrefix_append_false (by decide) _
    · rw [hsum] at hs
      cases hs
    · subst hp
      exact charsPrefix_append_false (by decide) _
    · subst hp
      rcases metaLine_shape hm with ⟨rest, hr⟩ | ⟨rest, hr⟩ <;> rw [hr] <;>
        exact charsPrefix_append_false (by decide) _
  · intro hsub p hp
    rcases headerParts_mem hp with hp | ⟨s, hs, hp⟩ | ⟨st, hst, hp⟩ | ⟨hm, hp⟩
    · subst hp
      exact charsPrefix_append_false (by decide) _
    · subst hp
      exact charsPrefix_append_false (by decide) _
    · rw [hsub] at hst
      cases hst
    · subst hp
      rcases metaLine_shape hm with ⟨rest, hr⟩ | ⟨rest, hr⟩ <;> rw [hr] <;>
        exact charsPrefix_append_false (by decide) _
  · intro hdf
    unfold metaParts
    rw [hdf]
    simp
  · intro hsp hdf p hp
    have hmeta : metaParts info = [] := by
      unfold metaParts
      rw [hdf, hsp]
      simp
    rcases headerParts_mem hp with hp | ⟨s, hs, hp⟩ | ⟨st, hst, hp⟩ | ⟨hm, hp⟩
    · subst hp
      exact ⟨charsPrefix_append_false (by decide) _,
        charsPrefix_append_false (by decide) _⟩
    · subst hp
      exact ⟨charsPrefix_append_false (by decide) _,
        charsPrefix_append_false (by decide) _⟩
    · subst hp
      exact ⟨charsPrefix_append_false (by decide) _,
        charsPrefix_append_false (by decide) _⟩
    · exact absurd hmeta hm
  · intro hn
    simp [extract_bill_info_from_chunk, hn]

/-- Witness for C4 as amended, at the all-absent metadata extracted from
`"hello"` (summary, subtitle and date are absent; the sponsor placeholder
appears). -/
theorem C4_amended_witness :
    (∀ p ∈ headerParts "HB1" (extract_bill_info_from_chunk "hello"),
      charsPrefix "**Summary**".data p.data = false) ∧
    metaParts (extract_bill_info_from_chunk "hello") =
      ["**Sponsor**: " ++ (extract_bill_info_from_chunk "hello").sponsor] :=
  ⟨(C4_amended "HB1" (extract_bill_info_from_chunk "hello") "hello").1 (by decide),
   ((C4_amended "HB1" (extract_bill_info_from_chunk "hello") "hello").2.2.1
      (by decide)).trans (by decide)⟩

/-- Claim C5, counterexample: rows of the same document separated by a row
of another document are NOT merged into one first-seen-order group - the
loop emits a new group for each maximal consecutive run, so `A.PDF`
appears as two groups. -/
theorem C5_counterexample :
    groupRuns [⟨"a", "A.PDF", 0⟩, ⟨"b", "B.PDF", 0⟩, ⟨"c", "A.PDF", 1⟩] =
      [("A.PDF", ["a"]), ("B.PDF", ["b"]), ("A.PDF", ["c"])] ∧
    ¬ ((groupRuns [⟨"a", "A.PDF", 0⟩, ⟨"b", "B.PDF", 0⟩, ⟨"c", "A.PDF", 1⟩]).map
        Prod.fst).Nodup := by
  refine ⟨by decide, by decide⟩

/-- Claim C5 as amended: for every retrieval result sequence (whose rows
have truthy bill names, as stored rows do), the formatted output groups
rows into maximal consecutive runs of equal document id - a document
whose rows are separated by another document's rows yields several
groups - with chunks in input order inside each group; rows with falsy
chunk text are skipped; no group is ever empty; and each group is
rendered through the Context Formatter. -/
theorem C5_amended (results : List Row)
    (h : ∀ r ∈ results, r.chunk ≠ "" → billNameOf r ≠ "") :
    groupRuns results = runGroupsSpec (cleanRows results) ∧
    (∀ g ∈ groupRuns results, g.2 ≠ []) ∧
    contextParts results = (runGroupsSpec (cleanRows results)).map renderGroup := by
  have he := groupRuns_eq_spec results h
  refine ⟨he, ?_, ?_⟩
  · rw [he]
    exact runGroupsSpec_chunks_ne_nil
  · unfold contextParts
    rw [he]

/-- Witness for C5 as amended, at the three-row interleaved sequence. -/
theorem C5_amended_witness :
    groupRuns [⟨"a", "A.PDF", 0⟩, ⟨"b", "B.PDF", 0⟩, ⟨"c", "A.PDF", 1⟩] =
      runGroupsSpec (cleanRows
        [⟨"a", "A.PDF", 0⟩, ⟨"b", "B.PDF", 0⟩, ⟨"c", "A.PDF", 1⟩]) ∧
    runGroupsSpec (cleanRows [⟨"a", "A.PDF", 0⟩, ⟨"b", "B.PDF", 0⟩, ⟨"c", "A.PDF", 1⟩]) =
      [("A.PDF", ["a"]), ("B.PDF", ["b"]), ("A.PDF", ["c"])] :=
  ⟨(C5_amended [⟨"a", "A.PDF", 0⟩, ⟨"b", "B.PDF", 0⟩, ⟨"c", "A.PDF", 1⟩]
      (by decide)).1, by decide⟩

/-! ### Claim C8: metadata extraction degrades to null fields. -/

/-- When no pattern of an ordered pattern list matches the window, the
pattern loop returns `None`. -/
theorem firstCapture_eq_none {pats : List RE} {w : String}
    (h : ∀ p ∈ pats, reSearch p w.data = none) :
    firstCapture pats w = none := by
  induction pats with
  | nil => rfl
  | cons p rest ih =>
    unfold firstCapture
    rw [h p (List.mem_cons_self p rest)]
    exact ih (fun q hq => h q (List.mem_cons_of_mem p hq))

/-- Claim C8: metadata extraction is a total function of the first-page
text that leaves `date_filed` null when the date pattern does not match
and also when the matched date string fails to parse (the injected
`pd.to_datetime` returns nothing and its error is not propagated), and
leaves `bill_subtitle` and `bill_sponsor` null when none of their
patterns match their windows. -/
theorem C8_metadata_null {τ : Type} (pdToDatetime : String → Option τ)
    (t : String) :
    (reSearch datePat (lastChars 500 t).data = none →
      (extract_metadata_from_first_page_text pdToDatetime t).date_filed =
        none) ∧
    ((∀ s, pdToDatetime s = none) →
      (extract_metadata_from_first_page_text pdToDatetime t).date_filed =
        none) ∧
    ((∀ p ∈ [subtitlePat1, subtitlePat2, subtitlePat3],
        reSearch p (takeChars 1500 t).data = none) →
      (extract_metadata_from_first_page_text pdToDatetime t).bill_subtitle =
        none) ∧
    ((∀ p ∈ [firstPageSponsorPat1, firstPageSponsorPat2,
        firstPageSponsorPat3],
        reSearch p (takeChars 1000 t).data = none) →
      (extract_metadata_from_first_page_text pdToDatetime t).bill_sponsor =
        none) := by
  refine ⟨?_, ?_, ?_, ?_⟩
  · intro h
    simp [extract_metadata_from_first_page_text, h]
  · intro h
    cases hs : reSearch datePat (lastChars 500 t).data with
    | none => simp [extract_metadata_from_first_page_text, hs]
    | some caps =>
      cases hc : capGroup caps 1 with
      | none => simp [extract_metadata_from_first_page_text, hs, hc]
      | some ds => simp [extract_metadata_from_first_page_text, hs, hc, h]
  · intro h
    exact firstCapture_eq_none h
  · intro h
    exact firstCapture_eq_none h

/-- Witness for C8: on a first page that is exactly a matching date stamp
(the date pattern does match, so the parse-failure branch is the one
exercised) with an always-failing parser, every metadata field is null. -/
theorem C8_metadata_null_witness :
    (reSearch datePat
      (lastChars 500 "01/02/2025 3:04:05 PM WFP123").data).isSome = true ∧
    (extract_metadata_from_first_page_text (fun _ : String => (none : Option Nat))
      "01/02/2025 3:04:05 PM WFP123").date_filed = none ∧
    (extract_metadata_from_first_page_text (fun _ : String => (none : Option Nat))
      "01/02/2025 3:04:05 PM WFP123").bill_subtitle = none ∧
    (extract_metadata_from_first_page_text (fun _ : String => (none : Option Nat))
      "01/02/2025 3:04:05 PM WFP123").bill_sponsor = none := by
  have h := C8_metadata_null (fun _ : String => (none : Option Nat))
    "01/02/2025 3:04:05 PM WFP123"
  exact ⟨by decide, h.2.1 (fun _ => rfl), h.2.2.1 (by decide),
    h.2.2.2 (by decide)⟩

/-! ### Claim C9: ordered subtitle pattern fallback. -/

/-- Claim C9: subtitle extraction tries the three label patterns in order
against the 1500-character leading window; the first pattern whose search
succeeds supplies the result - its first capture, stripped - and later
patterns are never consulted. -/
theorem C9_subtitle_fallback (t : String) :
    ((reSearch subtitlePat1 (takeChars 1500 t).data).isSome = true →
      extractSubtitle t = (reSearch subtitlePat1 (takeChars 1500 t).data).bind
        (fun caps => (capGroup caps 1).map (fun g => pyStrip ⟨g⟩))) ∧
    (reSearch subtitlePat1 (takeChars 1500 t).data = none →
      (reSearch subtitlePat2 (takeChars 1500 t).data).isSome = true →
      extractSubtitle t = (reSearch subtitlePat2 (takeChars 1500 t).data).bind
        (fun caps => (capGroup caps 1).map (fun g => pyStrip ⟨g⟩))) ∧
    (reSearch subtitlePat1 (takeChars 1500 t).data = none →
      reSearch subtitlePat2 (takeChars 1500 t).data = none →
      extractSubtitle t = (reSearch subtitlePat3 (takeChars 1500 t).data).bind
        (fun caps => (capGroup caps 1).map (fun g => pyStrip ⟨g⟩))) := by
  refine ⟨?_, ?_, ?_⟩
  · intro h
    obtain ⟨caps, hc⟩ := Option.isSome_iff_exists.mp h
    simp [extractSubtitle, firstCapture, hc]
  · intro h1 h
    obtain ⟨caps, hc⟩ := Option.isSome_iff_exists.mp h
    simp [extractSubtitle, firstCapture, h1, hc]
  · intro h1 h2
    simp only [extractSubtitle, firstCapture, h1, h2]
    cases h3 : reSearch subtitlePat3 (takeChars 1500 t).data with
    | none => simp [firstCapture, h3]
    | some caps => simp [firstCapture, h3]

/-- Witness for C9: on text containing `SUBTITLE: AN ACT TO DO X` followed
by a newline, subtitle extraction returns exactly `AN ACT TO DO X`. -/
theorem C9_subtitle_fallback_witness :
    extractSubtitle "SUBTITLE: AN ACT TO DO X\nMORE TEXT" =
      some "AN ACT TO DO X" := by
  have h := (C9_subtitle_fallback "SUBTITLE: AN ACT TO DO X\nMORE TEXT").1
    (by decide)
  exact h.trans (by decide)

/-! ### Claim C10: apostrophes are stripped before classification. -/

/-- Replacing single-character occurrences of `c` by a string that does
not contain `c` leaves no occurrence of `c`. -/
theorem replaceFuel_no_occ (c : Char) (new : List Char) (hc : c ∉ new) :
    ∀ fuel l, l.length ≤ fuel → c ∉ replaceFuel c [] new fuel l := by
  intro fuel
  induction fuel with
  | zero =>
    intro l hl
    have h0 : l = [] := List.length_eq_zero.mp (Nat.le_zero.mp hl)
    subst h0
    simp [replaceFuel]
  | succ fuel ih =>
    intro l hl
    cases l with
    | nil => simp [replaceFuel]
    | cons a rest =>
      have hrest : rest.length ≤ fuel := by
        simpa using Nat.le_of_succ_le_succ (by simpa using hl)
      by_cases hp : charsPrefix [c] (a :: rest) = true
      · simp only [replaceFuel, if_pos hp]
        intro hmem
        rcases List.mem_append.mp hmem with h1 | h2
        · exact hc h1
        · exact ih rest hrest (by simpa using h2)
      · simp only [replaceFuel, if_neg hp]
        intro hmem
        rcases List.mem_cons.mp hmem with h1 | h2
        · apply hp
          subst h1
          simp [charsPrefix]
        · exact ih rest hrest h2

/-- The question of the C10 scenario: a sponsor query for a name with an
apostrophe, as submitted by the user. -/
def qO : String :=
  "what bills by senator O" ++ String.singleton (Char.ofNat 39) ++ "Brien?"

/-- The stored table of the C10 scenario: one document whose first chunk
names its sponsor with the apostrophe kept, as chunk text stores it. -/
def tblO : List Row :=
  [⟨"By: Senator O" ++ String.singleton (Char.ofNat 39) ++
      "Brien\nAN ACT To Test", "SB100.PDF", 0⟩]

/-- A healthy backend over the C10 table. -/
def bO : Backend := ⟨tblO, false, false, false, false⟩

/-- Claim C10: `main` removes every apostrophe from the submitted
question before handing it to the retriever, so classification and all
four retrieval modes operate on the stripped text, which contains no
apostrophe; consequently a sponsor query for `O'Brien` is classified as a
query for the name `OBrien` (while the raw text would capture `O`), and
against a table whose chunk text stores `O'Brien` the handled question
returns no rows even though the raw question would. -/
theorem C10_apostrophe_stripped :
    (∀ (b : Backend) (debug : Bool) (n : Nat) (question : String),
      handle_question b debug n question =
        query_cortex_search_service b debug n
          (pyReplace question (String.singleton (Char.ofNat 39)) "")) ∧
    (∀ question : String, Char.ofNat 39 ∉
      (pyReplace question (String.singleton (Char.ofNat 39)) "").data) ∧
    (classify (pyReplace qO (String.singleton (Char.ofNat 39)) "") =
      .sponsor "OBrien" ∧
     classify qO = .sponsor "O" ∧
     (handle_question bO false 5 qO).rows = [] ∧
     (query_cortex_search_service bO false 5 qO).rows ≠ []) := by
  refine ⟨fun b debug n question => rfl, fun question => ?_, by decide⟩
  exact replaceFuel_no_occ (Char.ofNat 39) [] (by simp)
    question.data.length question.data (le_refl _)

/-- Witness for C10, at the apostrophe question of the scenario: its
stripped form contains no apostrophe. -/
theorem C10_apostrophe_stripped_witness :
    Char.ofNat 39 ∉
      (pyReplace qO (String.singleton (Char.ofNat 39)) "").data :=
  C10_apostrophe_stripped.2.1 qO

end BillBrief
